import Mathlib

/-
Verification development for the symbolic instruction-flow engine of
coeus-rs (coeus_analysis/src/analysis/instruction_flow.rs).

Shallow embedding conventions:
* Rust i128 values are modelled as Lean Int together with explicit
  128-bit two's-complement wrapping (release-profile semantics: +, -, *
  and << wrap, shift amounts are masked to the low 7 bits).  Division
  and remainder keep Rust's always-on overflow/zero checks: a division
  by zero or i128::MIN / -1 panics even in release mode, which we model
  by returning none.
* Fallible Rust code (indexing a Vec out of bounds, arithmetic panics)
  is modelled with Option; none means the Rust code panics.
* External data-model types from coeus_models (Instruction, DexFile,
  Class, Method, Field, Proto, InstructionOffset, InstructionSize) are
  not part of the three source files; they are reconstructed from their
  usage in instruction_flow.rs and from the specification's data-model
  section.  Program counters are Int (offsets in 16-bit code words),
  instruction sizes are Nat (bytes), registers are Nat indices.
* The `operation: fn(&Value,&Value)->Value` function pointer stored in
  BinaryOperation is defunctionalized into the operator tag `Op`
  (each closure in the source is one of the eleven operators); Op.apply
  recovers the denotation.
* HashMaps are modelled as association lists, random u64 ids as Nat
  supplied by explicit id streams, and the rayon-parallel tick as its
  sequential linearization (branches processed in list order, the three
  mutex-guarded lists accumulated in that order).
-/

namespace Coeus

/-- 2^127, the magnitude of the i128 sign bound. -/
def i128Half : Int := (170141183460469231731687303715884105728 : Int)

/-- 2^128. -/
def i128Size : Int := (340282366920938463463374607431768211456 : Int)

/-- i128::MIN. -/
def i128Min : Int := -i128Half

/-- Wrap an unbounded integer into i128 two's-complement range
(release-mode overflow behaviour of Rust `+`, `-`, `*`, `<<`). -/
def wrap128 (z : Int) : Int := Int.emod (z + i128Half) i128Size - i128Half

/-- The unsigned 128-bit reinterpretation of an i128 value (`as u128`). -/
def toU128 (z : Int) : Int := Int.emod z i128Size

/-- Reinterpret an unsigned 128-bit value as i128 (`as i128`). -/
def toI128 (u : Int) : Int := if u < i128Half then u else u - i128Size

/-- Shift amounts on 128-bit operands are masked to the low 7 bits in
release builds. -/
def shiftMask (z : Int) : Nat := (Int.emod z 128).toNat

/-- `as usize` on an i128 index (64-bit target): truncate to 64 bits. -/
def asUsize (z : Int) : Nat := (Int.emod z (18446744073709551616 : Int)).toNat

/-- `as u8` on an i128 value. -/
def asU8 (z : Int) : Nat := (Int.emod z 256).toNat

/-- Rust `a / b` on i128: truncated division; zero divisor or
i128::MIN / -1 panic (none). -/
def i128Div (a b : Int) : Option Int :=
  if b = 0 ∨ (a = i128Min ∧ b = -1) then none else some (Int.tdiv a b)

/-- Rust `a % b` on i128: truncated remainder; zero divisor or
i128::MIN % -1 panic (none). -/
def i128Rem (a b : Int) : Option Int :=
  if b = 0 ∨ (a = i128Min ∧ b = -1) then none else some (Int.tmod a b)

/-- Bitwise AND on the two's-complement representations. -/
def i128And (a b : Int) : Int := toI128 (Int.ofNat (Nat.land (toU128 a).toNat (toU128 b).toNat))

/-- Bitwise OR on the two's-complement representations. -/
def i128Or (a b : Int) : Int := toI128 (Int.ofNat (Nat.lor (toU128 a).toNat (toU128 b).toNat))

/-- Bitwise XOR on the two's-complement representations. -/
def i128Xor (a b : Int) : Int := toI128 (Int.ofNat (Nat.xor (toU128 a).toNat (toU128 b).toNat))

/-- Rust `a << b` on i128 in release mode: masked shift, wrapping. -/
def i128Shl (a b : Int) : Int := wrap128 (a * Int.ofNat (2 ^ shiftMask b))

/-- Rust `a >> b` on i128 in release mode: arithmetic (sign-extending)
shift by the masked amount; this is flooring division by 2^k. -/
def i128Shr (a b : Int) : Int := Int.ediv a (Int.ofNat (2 ^ shiftMask b))

/-- `((a as u128) >> b) as i128`: logical shift on the unsigned
reinterpretation. -/
def i128UShr (a b : Int) : Int := toI128 (Int.ediv (toU128 a) (Int.ofNat (2 ^ shiftMask b)))

/-- Defunctionalized operator tag for the `fn(&Value,&Value)->Value`
pointer stored in BinaryOperation (each source closure is one of
these). -/
inductive Op where
  | add | sub | mul | div | rem
  | and | or | xor
  | shl | shr | ushr
deriving DecidableEq

/-- Class (coeus_models): the fields read by instruction_flow.rs. -/
structure Method where
  method_name : String
  proto_idx : Nat
  class_idx : Nat
  method_idx : Nat

/-- One entry of `Class.codes`; instruction_flow.rs only reads its
`method` field. -/
structure CodeMethod where
  method : Method

/-- Class (coeus_models): the fields read by instruction_flow.rs. -/
structure Class where
  class_name : String
  class_idx : Nat
  codes : List CodeMethod

/-- Field (coeus_models): the fields read by instruction_flow.rs. -/
structure Field where
  name : String
  class_idx : Nat

/-- Proto (coeus_models): `to_string(&dex)` and `get_return_type(&dex)`
are modelled as precomputed strings. -/
structure Proto where
  sig : String
  return_type : String

/-- DexFile (coeus_models): the read-only symbol view used by the
engine, modelled as the accessors instruction_flow.rs calls. -/
structure DexFile where
  methods : List Method
  protos : List Proto
  fields : List Field
  get_string : Nat → Option String
  get_type_name : Nat → Option String
  get_class_name : Nat → Option String
  get_class_by_type_name_idx : Nat → Option Class
  get_class_by_type : Nat → Option Class
  get_implementations_for : Class → List (Nat × Class)

mutual

/-- The symbolic value domain (`enum Value`). The Rust constructor
`Variable` is a Lean keyword, hence `var`; `Char` carries the Unicode
code point as a Nat. -/
inductive Value where
  | string (s : String)
  | num (n : Int)
  | boolean (b : Bool)
  | char (c : Nat)
  | byte (b : Nat)
  | bytes (bs : List Nat)
  | var (li : LastInstruction)
  | unknown (ty : String)
  | object (ty : String)
  | invalid
  | empty

/-- `enum LastInstruction`. The Rust field `class` is a Lean keyword,
hence `cls`. -/
inductive LastInstruction where
  | functionCall (name signature class_name : String) (cls : Class) (method : Method)
      (args : List Value) (result : Option Value)
  | readStaticField (file : DexFile) (class_name : String) (cls : Class)
      (field : Field) (name : String)
  | storeStaticField (file : DexFile) (class_name : String) (cls : Class)
      (field : Field) (name : String) (arg : Value)
  | binaryOperation (left right : Value) (operation : Op)

end

/-- `Value::try_get_number`. -/
def Value.try_get_number : Value → Option Int
  | .num number => some number
  | .byte b => some (Int.ofNat b)
  | .char c => some (Int.ofNat c)
  | .boolean b => some (if b then 1 else 0)
  | _ => none

/-- `matches!(v, Value::Variable { .. })`. -/
def Value.isVariable : Value → Bool
  | .var _ => true
  | _ => false

/-- `matches!(v, Value::Empty)`. -/
def Value.isEmptyV : Value → Bool
  | .empty => true
  | _ => false

/-- `Value::is_constant`. -/
def Value.is_constant : Value → Bool
  | .var _ | .unknown _ | .object _ | .invalid | .empty => false
  | _ => true

/-- `impl BitXor for &Value` (note: the right operand has no Variable
fallback in the source — a non-numeric rhs is Invalid). -/
def xorV (self rhs : Value) : Option Value :=
  match self.try_get_number with
  | none =>
      if self.isVariable then
        some (.var (.binaryOperation self rhs .xor))
      else some .invalid
  | some lhs =>
      match rhs.try_get_number with
      | none => some .invalid
      | some r => some (.num (i128Xor lhs r))

/-- `impl BitXor<i128> for &Value`. -/
def xorLit (self : Value) (rhs : Int) : Option Value :=
  match self.try_get_number with
  | none =>
      if self.isVariable then
        some (.var (.binaryOperation self (.num rhs) .xor))
      else some .invalid
  | some lhs => some (.num (i128Xor lhs rhs))

/-- `impl BitAnd for &Value`. -/
def andV (self rhs : Value) : Option Value :=
  match self.try_get_number with
  | none =>
      if self.isVariable then
        some (.var (.binaryOperation self rhs .and))
      else some .invalid
  | some lhs =>
      match rhs.try_get_number with
      | none =>
          if rhs.isVariable then
            some (.var (.binaryOperation self rhs .and))
          else some .invalid
      | some r => some (.num (i128And lhs r))

/-- `impl BitAnd<i128> for &Value`. -/
def andLit (self : Value) (rhs : Int) : Option Value :=
  match self.try_get_number with
  | none =>
      if self.isVariable then
        some (.var (.binaryOperation self (.num rhs) .and))
      else some .invalid
  | some lhs => some (.num (i128And lhs rhs))

/-- `impl BitOr for &Value`. -/
def orV (self rhs : Value) : Option Value :=
  match self.try_get_number with
  | none =>
      if self.isVariable then
        some (.var (.binaryOperation self rhs .or))
      else some .invalid
  | some lhs =>
      match rhs.try_get_number with
      | none =>
          if rhs.isVariable then
            some (.var (.binaryOperation self rhs .or))
          else some .invalid
      | some r => some (.num (i128Or lhs r))

/-- `impl BitOr<i128> for &Value`. -/
def orLit (self : Value) (rhs : Int) : Option Value :=
  match self.try_get_number with
  | none =>
      if self.isVariable then
        some (.var (.binaryOperation self (.num rhs) .or))
      else some .invalid
  | some lhs => some (.num (i128Or lhs rhs))

/-- `impl Rem for &Value`: guards a zero right operand with Invalid;
i128::MIN % -1 still panics (none). -/
def remV (self rhs : Value) : Option Value :=
  match self.try_get_number with
  | none =>
      if self.isVariable then
        some (.var (.binaryOperation self rhs .rem))
      else some .invalid
  | some lhs =>
      match rhs.try_get_number with
      | none =>
          if rhs.isVariable then
            some (.var (.binaryOperation self rhs .rem))
          else some .invalid
      | some r =>
          if r = 0 then some .invalid
          else (i128Rem lhs r).map (fun n => .num n)

/-- `impl Rem<i128> for &Value`: no zero guard — `lhs % 0` panics. -/
def remLit (self : Value) (rhs : Int) : Option Value :=
  match self.try_get_number with
  | none =>
      if self.isVariable then
        some (.var (.binaryOperation self (.num rhs) .rem))
      else some .invalid
  | some lhs => (i128Rem lhs rhs).map (fun n => .num n)

/-- `impl Add for &Value`. -/
def addV (self rhs : Value) : Option Value :=
  match self.try_get_number with
  | none =>
      if self.isVariable then
        some (.var (.binaryOperation self rhs .add))
      else some .invalid
  | some lhs =>
      match rhs.try_get_number with
      | none =>
          if rhs.isVariable then
            some (.var (.binaryOperation self rhs .add))
          else some .invalid
      | some r => some (.num (wrap128 (lhs + r)))

/-- `impl Add<i128> for &Value`. -/
def addLit (self : Value) (rhs : Int) : Option Value :=
  match self.try_get_number with
  | none =>
      if self.isVariable then
        some (.var (.binaryOperation self (.num rhs) .add))
      else some .invalid
  | some lhs => some (.num (wrap128 (lhs + rhs)))

/-- `impl Sub for &Value`. -/
def subV (self rhs : Value) : Option Value :=
  match self.try_get_number with
  | none =>
      if self.isVariable then
        some (.var (.binaryOperation self rhs .sub))
      else some .invalid
  | some lhs =>
      match rhs.try_get_number with
      | none =>
          if rhs.isVariable then
            some (.var (.binaryOperation self rhs .sub))
          else some .invalid
      | some r => some (.num (wrap128 (lhs - r)))

/-- `impl Sub<i128> for &Value`. -/
def subLit (self : Value) (rhs : Int) : Option Value :=
  match self.try_get_number with
  | none =>
      if self.isVariable then
        some (.var (.binaryOperation self (.num rhs) .sub))
      else some .invalid
  | some lhs => some (.num (wrap128 (lhs - rhs)))

/-- `impl Mul for &Value`. -/
def mulV (self rhs : Value) : Option Value :=
  match self.try_get_number with
  | none =>
      if self.isVariable then
        some (.var (.binaryOperation self rhs .mul))
      else some .invalid
  | some lhs =>
      match rhs.try_get_number with
      | none =>
          if rhs.isVariable then
            some (.var (.binaryOperation self rhs .mul))
          else some .invalid
      | some r => some (.num (wrap128 (lhs * r)))

/-- `impl Mul<i128> for &Value`. -/
def mulLit (self : Value) (rhs : Int) : Option Value :=
  match self.try_get_number with
  | none =>
      if self.isVariable then
        some (.var (.binaryOperation self (.num rhs) .mul))
      else some .invalid
  | some lhs => some (.num (wrap128 (lhs * rhs)))

/-- `impl Div for &Value`: the deferred closure divides, but the
constant fold computes `lhs * rhs` — the source multiplies instead of
dividing. -/
def divV (self rhs : Value) : Option Value :=
  match self.try_get_number with
  | none =>
      if self.isVariable then
        some (.var (.binaryOperation self rhs .div))
      else some .invalid
  | some lhs =>
      match rhs.try_get_number with
      | none =>
          if rhs.isVariable then
            some (.var (.binaryOperation self rhs .div))
          else some .invalid
      | some r => some (.num (wrap128 (lhs * r)))

/-- `impl Div<i128> for &Value`: the fold truly divides (panicking on a
zero literal), but the deferred closure reads `left * right`. -/
def divLit (self : Value) (rhs : Int) : Option Value :=
  match self.try_get_number with
  | none =>
      if self.isVariable then
        some (.var (.binaryOperation self (.num rhs) .mul))
      else some .invalid
  | some lhs => (i128Div lhs rhs).map (fun n => .num n)

/-- `impl Shl for &Value`. -/
def shlV (self rhs : Value) : Option Value :=
  match self.try_get_number with
  | none =>
      if self.isVariable then
        some (.var (.binaryOperation self rhs .shl))
      else some .invalid
  | some lhs =>
      match rhs.try_get_number with
      | none =>
          if rhs.isVariable then
            some (.var (.binaryOperation self rhs .shl))
          else some .invalid
      | some r => some (.num (i128Shl lhs r))

/-- `impl Shl<i128> for &Value`. -/
def shlLit (self : Value) (rhs : Int) : Option Value :=
  match self.try_get_number with
  | none =>
      if self.isVariable then
        some (.var (.binaryOperation self (.num rhs) .shl))
      else some .invalid
  | some lhs => some (.num (i128Shl lhs rhs))

/-- `impl Shr for &Value`: the right-operand fallback tests
`matches!(self, ...)` in the source — at that point `self` already
projected to a number, so the fallback is dead and a non-numeric rhs is
Invalid. -/
def shrV (self rhs : Value) : Option Value :=
  match self.try_get_number with
  | none =>
      if self.isVariable then
        some (.var (.binaryOperation self rhs .shr))
      else some .invalid
  | some lhs =>
      match rhs.try_get_number with
      | none =>
          if self.isVariable then
            some (.var (.binaryOperation self rhs .shr))
          else some .invalid
      | some r => some (.num (i128Shr lhs r))

/-- `impl Shr<i128> for &Value`. -/
def shrLit (self : Value) (rhs : Int) : Option Value :=
  match self.try_get_number with
  | none =>
      if self.isVariable then
        some (.var (.binaryOperation self (.num rhs) .shr))
      else some .invalid
  | some lhs => some (.num (i128Shr lhs rhs))

/-- `impl UShr for &Value`: same dead `matches!(self, ...)` fallback on
the right operand as Shr. -/
def ushrV (self rhs : Value) : Option Value :=
  match self.try_get_number with
  | none =>
      if self.isVariable then
        some (.var (.binaryOperation self rhs .ushr))
      else some .invalid
  | some lhs =>
      match rhs.try_get_number with
      | none =>
          if self.isVariable then
            some (.var (.binaryOperation self rhs .ushr))
          else some .invalid
      | some r => some (.num (i128UShr lhs r))

/-- `impl UShr<i128> for &Value`. -/
def ushrLit (self : Value) (rhs : Int) : Option Value :=
  match self.try_get_number with
  | none =>
      if self.isVariable then
        some (.var (.binaryOperation self (.num rhs) .ushr))
      else some .invalid
  | some lhs => some (.num (i128UShr lhs rhs))

/-- Denotation of the defunctionalized operator tag: every closure
stored in a BinaryOperation applies the corresponding `&Value`
operator. -/
def Op.apply : Op → Value → Value → Option Value
  | .add => addV
  | .sub => subV
  | .mul => mulV
  | .div => divV
  | .rem => remV
  | .and => andV
  | .or => orV
  | .xor => xorV
  | .shl => shlV
  | .shr => shrV
  | .ushr => ushrV

/-- The six comparators of conditional tests (coeus_models
TestFunction). -/
inductive TestFunction where
  | equal | notEqual | lessThan | lessEqual | greaterThan | greaterEqual

/-- The Instruction enum of coeus_models, reconstructed from the
exhaustive match in `next_instruction` (there is no wildcard arm, so
the variants below are exactly the ones the engine handles).
Registers are Nat indices, displacements are Int (already
sign-extended: `offset as i32`), `constLit4`'s payload is the
sign-extended `i8::from(val)` and the wider const payloads are the
`as i128` values. -/
inductive Instr where
  | arbitraryData (payload : Nat)
  | goto8 (off : Int)
  | goto16 (off : Int)
  | goto32 (off : Int)
  | checkCast (reg ty : Nat)
  | test (t : TestFunction) (left right : Nat) (off : Int)
  | testZero (t : TestFunction) (left : Nat) (off : Int)
  | switch (reg : Nat) (tableOff : Int)
  | switchData (targets : List (Int × Int))
  | xorInt (left right : Nat)
  | xorLong (left right : Nat)
  | xorIntDst (dst left right : Nat)
  | xorLongDst (dst left right : Nat)
  | xorIntDstLit8 (dst left : Nat) (lit : Int)
  | xorIntDstLit16 (dst left : Nat) (lit : Int)
  | remIntDst (dst left right : Nat)
  | remLongDst (dst left right : Nat)
  | remInt (left right : Nat)
  | remLong (left right : Nat)
  | remIntLit16 (dst left : Nat) (lit : Int)
  | remIntLit8 (dst left : Nat) (lit : Int)
  | addInt (left right : Nat)
  | addLong (left right : Nat)
  | addIntDst (dst left right : Nat)
  | addLongDst (dst left right : Nat)
  | addIntLit8 (dst left : Nat) (lit : Int)
  | addIntLit16 (dst left : Nat) (lit : Int)
  | subInt (left right : Nat)
  | subLong (left right : Nat)
  | subIntDst (dst left right : Nat)
  | subLongDst (dst left right : Nat)
  | subIntLit8 (dst left : Nat) (lit : Int)
  | subIntLit16 (dst left : Nat) (lit : Int)
  | mulInt (left right : Nat)
  | mulLong (left right : Nat)
  | mulIntDst (dst left right : Nat)
  | mulLongDst (dst left right : Nat)
  | mulIntLit8 (dst left : Nat) (lit : Int)
  | mulIntLit16 (dst left : Nat) (lit : Int)
  | divInt (left right : Nat)
  | divLong (left right : Nat)
  | divIntDst (dst left right : Nat)
  | divLongDst (dst left right : Nat)
  | divIntLit8 (dst left : Nat) (lit : Int)
  | divIntLit16 (dst left : Nat) (lit : Int)
  | andInt (left right : Nat)
  | andLong (left right : Nat)
  | andIntDst (dst left right : Nat)
  | andLongDst (dst left right : Nat)
  | andIntLit8 (dst left : Nat) (lit : Int)
  | andIntLit16 (dst left : Nat) (lit : Int)
  | orInt (left right : Nat)
  | orLong (left right : Nat)
  | orIntDst (dst left right : Nat)
  | orLongDst (dst left right : Nat)
  | orIntLit8 (dst left : Nat) (lit : Int)
  | orIntLit16 (dst left : Nat) (lit : Int)
  | invoke (payload : Nat)
  | invokeType (payload : Nat)
  | invokeInterface (kind method : Nat) (regs : List Nat)
  | invokeVirtual (kind method : Nat) (regs : List Nat)
  | invokeSuper (kind method : Nat) (regs : List Nat)
  | invokeDirect (kind method : Nat) (regs : List Nat)
  | invokeStatic (kind method : Nat) (regs : List Nat)
  | invokeVirtualRange (kind method payload : Nat)
  | invokeSuperRange (kind method payload : Nat)
  | invokeDirectRange (kind method payload : Nat)
  | invokeStaticRange (kind method payload : Nat)
  | invokeInterfaceRange (kind method payload : Nat)
  | constLit4 (reg : Nat) (val : Int)
  | constLit16 (reg : Nat) (val : Int)
  | constLit32 (reg : Nat) (val : Int)
  | constString (reg strIdx : Nat)
  | constStringJumbo (reg strIdx : Nat)
  | constClass (reg c : Nat)
  | const
  | constWide
  | intToByte (dst src : Nat)
  | intToChar (dst src : Nat)
  | arrayLength (dst array : Nat)
  | newInstance (reg ty : Nat)
  | newInstanceType (ty : Nat)
  | newArray (a b c : Nat)
  | filledNewArray (a b c : Nat)
  | filledNewArrayRange (a b c : Nat)
  | fillArrayData (a b : Nat)
  | arrayGetByte (dst arrReg indexReg : Nat)
  | arrayPutByte (src arrReg indexReg : Nat)
  | arrayGetChar (dst arrReg indexReg : Nat)
  | arrayPutChar (src arrReg indexReg : Nat)
  | staticGet (dst field : Nat)
  | staticGetObject (dst field : Nat)
  | staticGetBoolean (dst field : Nat)
  | staticGetByte (dst field : Nat)
  | staticGetChar (dst field : Nat)
  | staticGetShort (dst field : Nat)
  | staticGetWide (dst field : Nat)
  | staticPut (a b : Nat)
  | staticPutWide (a b : Nat)
  | staticPutObject (a b : Nat)
  | staticPutBoolean (a b : Nat)
  | staticPutByte (a b : Nat)
  | staticPutChar (a b : Nat)
  | staticPutShort (a b : Nat)
  | instanceGet (dst b c : Nat)
  | instanceGetObject (dst b c : Nat)
  | instanceGetShort (dst b c : Nat)
  | instanceGetBoolean (dst b c : Nat)
  | instanceGetByte (dst b c : Nat)
  | instanceGetChar (dst b c : Nat)
  | instanceGetWide (dst b c : Nat)
  | instancePut (a b c : Nat)
  | instancePutWide (a b c : Nat)
  | instancePutObject (a b c : Nat)
  | instancePutBoolean (a b c : Nat)
  | instancePutByte (a b c : Nat)
  | instancePutChar (a b c : Nat)
  | instancePutShort (a b c : Nat)
  | move (dst src : Nat)
  | moveObject (dst src : Nat)
  | move16 (dst src : Nat)
  | moveObject16 (dst src : Nat)
  | moveResult (reg : Nat)
  | moveResultWide (reg : Nat)
  | moveResultObject (reg : Nat)
  | moveFrom16 (dst src : Nat)
  | moveWideFrom16 (dst src : Nat)
  | moveObjectFrom16 (dst src : Nat)
  | moveWide (dst src : Nat)
  | moveWide16 (dst src : Nat)
  | returnVoid
  | ret (reg : Nat)
  | throw (reg : Nat)
  | notImpl (a b : Nat)
  | arrayData (a payload : Nat)
  | shrIntLit8 (dst left : Nat) (lit : Int)
  | ushrIntLit8 (dst left : Nat) (lit : Int)
  | nop

/-- `is_move_result`. -/
def is_move_result : Instr → Bool
  | .moveResult _ | .moveResultObject _ | .moveResultWide _ => true
  | _ => false

/-- `is_function_call`. -/
def is_function_call : Instr → Bool
  | .invoke _
  | .invokeDirect _ _ _ | .invokeDirectRange _ _ _
  | .invokeInterface _ _ _ | .invokeInterfaceRange _ _ _
  | .invokeStatic _ _ _ | .invokeStaticRange _ _ _
  | .invokeSuper _ _ _ | .invokeSuperRange _ _ _
  | .invokeVirtual _ _ _ | .invokeVirtualRange _ _ _ => true
  | _ => false

/-- The `HashMap<InstructionOffset, (InstructionSize, Instruction)>`
decoded-method map, as an association list keyed by offset; the Nat is
the raw byte size. -/
def MethodMap := List (Int × (Nat × Instr))

/-- HashMap::get. -/
def lookupInstr : MethodMap → Int → Option (Nat × Instr)
  | [], _ => none
  | (k, v) :: rest, pc => if k = pc then some v else lookupInstr rest pc

/-- `struct State` (the loop_count HashMap is an association list). -/
structure State where
  id : Nat
  registers : List Value
  last_instruction : Option LastInstruction
  tainted : Bool
  loop_count : List (Int × Nat)

/-- `struct Branch`. -/
structure Branch where
  parent_id : Option Nat
  id : Nat
  pc : Int
  state : State
  previous_pc : Int
  finished : Bool

/-- The contributions of one branch's step: its updated branch plus the
entries it pushed to the three mutex-guarded lists (branches_to_add,
branches_to_taint, already_branched). -/
structure StepResult where
  branch : Branch
  forks : List (Int × Branch)
  taints : List Nat
  logAdds : List (Nat × Int)

/-- `registers[i] = v`: panics (none) when the index is out of
bounds. -/
def setReg (regs : List Value) (i : Nat) (v : Value) : Option (List Value) :=
  if i < regs.length then some (regs.set i v) else none

/-- Replace a branch's register file. -/
def withRegs (b : Branch) (regs : List Value) : Branch :=
  {b with state := {b.state with registers := regs}}

/-- `state.loop_count.entry(pc).or_insert(0).add_assign(1)`. -/
def bumpLoop : List (Int × Nat) → Int → List (Int × Nat)
  | [], pc => [(pc, 1)]
  | (k, n) :: rest, pc =>
      if k = pc then (k, n + 1) :: rest else (k, n) :: bumpLoop rest pc

/-- Evaluate one comparator on two numbers. -/
def testEval : TestFunction → Int → Int → Bool
  | .equal, l, r => decide (l = r)
  | .notEqual, l, r => decide (l ≠ r)
  | .lessThan, l, r => decide (l < r)
  | .lessEqual, l, r => decide (l ≤ r)
  | .greaterThan, l, r => decide (l > r)
  | .greaterEqual, l, r => decide (l ≥ r)

/-- In-place binary arithmetic: `registers[l] = &registers[l] OP
&registers[r]`. -/
def binInPlace (b : Branch) (op : Value → Value → Option Value) (l r : Nat) :
    Option Branch := do
  let lv ← b.state.registers[l]?
  let rv ← b.state.registers[r]?
  let res ← op lv rv
  let regs ← setReg b.state.registers l res
  some (withRegs b regs)

/-- Three-register binary arithmetic: `registers[d] = &registers[l] OP
&registers[r]`. -/
def binDst (b : Branch) (op : Value → Value → Option Value) (d l r : Nat) :
    Option Branch := do
  let lv ← b.state.registers[l]?
  let rv ← b.state.registers[r]?
  let res ← op lv rv
  let regs ← setReg b.state.registers d res
  some (withRegs b regs)

/-- Literal binary arithmetic: `registers[d] = &registers[l] OP lit`. -/
def binLit (b : Branch) (op : Value → Int → Option Value) (d l : Nat) (lit : Int) :
    Option Branch := do
  let lv ← b.state.registers[l]?
  let res ← op lv lit
  let regs ← setReg b.state.registers d res
  some (withRegs b regs)

/-- Outcome of dispatching one instruction: `early` corresponds to a
Rust `return` inside the match (skipping the stale-call reset and the
fall-through pc advance), `fall` reaches the common exit. -/
inductive ArmOut where
  | early (b : Branch) (forks : List (Int × Branch)) (taints : List Nat)
      (logAdds : List (Nat × Int))
  | fall (b : Branch) (forks : List (Int × Branch)) (taints : List Nat)
      (logAdds : List (Nat × Int))

/-- A `fall` with no shared-list contributions. -/
def fallB (ob : Option Branch) : Option ArmOut :=
  ob.map (fun b => .fall b [] [] [])

/-- Build the FunctionCall record shared by the invoke arms. -/
def mkFunctionCall (name signature class_name : String) (cls : Class)
    (method : Method) (args : List Value) (return_type : String) :
    LastInstruction :=
  .functionCall name signature class_name cls method args
    (if return_type == "V" then none else some (.object return_type))

/-- The body of the big `match instruction.1` in `next_instruction`,
for one branch; `log` is the current content of the shared
already_branched list and `sz` the instruction's raw byte size. -/
def dispatch (conservative : Bool) (dex : DexFile) (method : MethodMap)
    (log : List (Nat × Int)) (sz : Nat) (b : Branch) : Instr → Option ArmOut
  | .arbitraryData _ => fallB (some b)
  | .goto8 off => some (.early {b with pc := b.pc + off} [] [] [])
  | .goto16 off => some (.early {b with pc := b.pc + off} [] [] [])
  | .goto32 off => some (.early {b with pc := b.pc + off} [] [] [])
  | .checkCast _ _ => fallB (some b)
  | .test t left right off =>
      if log.any (fun p => p.2 == b.pc && p.1 == b.id) then
        some (.early {b with pc := b.pc + Int.ofNat (sz / 2)} []
          (b.id :: log.map (fun p => p.1)) [])
      else
        let b := {b with state :=
          {b.state with loop_count := bumpLoop b.state.loop_count b.pc}}
        let adds := [(b.id, b.pc)]
        match b.state.registers[left]?, b.state.registers[right]? with
        | some lv, some rv =>
            match lv.try_get_number, rv.try_get_number with
            | some ln, some rn =>
                if testEval t ln rn then
                  some (.early {b with pc := b.pc + off} [] [] adds)
                else
                  some (.fall b [] [] adds)
            | _, _ =>
                let b :=
                  if conservative || lv.isEmptyV || rv.isEmptyV then
                    {b with state := {b.state with tainted := true}}
                  else b
                let nb := {b with
                  parent_id := some b.id,
                  pc := b.pc + off,
                  state := {b.state with loop_count := []}}
                some (.fall b [(b.pc, nb)] [] adds)
        | _, _ => none
  | .testZero t left off =>
      if log.any (fun p => p.2 == b.pc && p.1 == b.id) then
        some (.early {b with pc := b.pc + Int.ofNat (sz / 2)} []
          (b.id :: log.map (fun p => p.1)) [])
      else
        let b := {b with state :=
          {b.state with loop_count := bumpLoop b.state.loop_count b.pc}}
        let adds := [(b.id, b.pc)]
        match b.state.registers[left]? with
        | some lv =>
            match lv.try_get_number with
            | some ln =>
                if testEval t ln 0 then
                  some (.early {b with pc := b.pc + off} [] [] adds)
                else
                  some (.fall b [] [] adds)
            | none =>
                let b :=
                  if conservative || lv.isEmptyV then
                    {b with state := {b.state with tainted := true}}
                  else b
                let nb := {b with
                  pc := b.pc + off,
                  parent_id := some b.id,
                  state := {b.state with loop_count := []}}
                some (.fall b [(b.pc, nb)] [] adds)
        | none => none
  | .switch _ tableOff =>
      let forks :=
        match lookupInstr method (b.pc + tableOff) with
        | some (_, .switchData targets) =>
            targets.foldl (fun acc kv =>
              if log.any (fun p => p.2 == b.pc) then acc
              else acc ++ [(b.pc, {b with parent_id := some b.id, pc := b.pc + kv.2})]) []
        | _ => []
      some (.early {b with finished := true} forks [] [])
  | .xorInt left right => fallB (binInPlace b xorV left right)
  | .xorLong left right => fallB (binInPlace b xorV left right)
  | .xorIntDst d l r => fallB (binDst b xorV d l r)
  | .xorLongDst d l r => fallB (binDst b xorV d l r)
  | .xorIntDstLit8 d l lit => fallB (binLit b xorLit d l lit)
  | .xorIntDstLit16 d l lit => fallB (binLit b xorLit d l lit)
  | .remIntDst d l r => fallB (binDst b remV d l r)
  | .remLongDst d l r => fallB (binDst b remV d l r)
  | .remInt left right => fallB (binInPlace b remV left right)
  | .remLong left right => fallB (binInPlace b remV left right)
  | .remIntLit16 d l lit => fallB (binLit b remLit d l lit)
  | .remIntLit8 d l lit => fallB (binLit b remLit d l lit)
  | .addInt left right => fallB (binInPlace b addV left right)
  | .addLong left right => fallB (binInPlace b addV left right)
  | .addIntDst d l r => fallB (binDst b addV d l r)
  | .addLongDst d l r => fallB (binDst b addV d l r)
  | .addIntLit8 d l lit => fallB (binLit b addLit d l lit)
  | .addIntLit16 d l lit => fallB (binLit b addLit d l lit)
  | .subInt left right => fallB (binInPlace b subV left right)
  | .subLong left right => fallB (binInPlace b subV left right)
  | .subIntDst d l r => fallB (binDst b subV d l r)
  | .subLongDst d l r => fallB (binDst b subV d l r)
  | .subIntLit8 d l lit => fallB (binLit b subLit d l lit)
  | .subIntLit16 d l lit => fallB (binLit b subLit d l lit)
  | .mulInt left right => fallB (binInPlace b mulV left right)
  | .mulLong left right => fallB (binInPlace b mulV left right)
  | .mulIntDst d l r => fallB (binDst b mulV d l r)
  | .mulLongDst d l r => fallB (binDst b mulV d l r)
  | .mulIntLit8 d l lit => fallB (binLit b mulLit d l lit)
  | .mulIntLit16 d l lit => fallB (binLit b mulLit d l lit)
  | .divInt left right => fallB (binInPlace b divV left right)
  | .divLong left right => fallB (binInPlace b divV left right)
  | .divIntDst d l r => fallB (binDst b divV d l r)
  | .divLongDst d l r => fallB (binDst b divV d l r)
  | .divIntLit8 d l lit => fallB (binLit b divLit d l lit)
  | .divIntLit16 d l lit => fallB (binLit b divLit d l lit)
  | .andInt left right => fallB (binInPlace b andV left right)
  | .andLong left right => fallB (binInPlace b andV left right)
  | .andIntDst d l r => fallB (binDst b andV d l r)
  | .andLongDst d l r => fallB (binDst b andV d l r)
  | .andIntLit8 d l lit => fallB (binLit b andLit d l lit)
  | .andIntLit16 d l lit => fallB (binLit b andLit d l lit)
  | .orInt left right => fallB (binInPlace b orV left right)
  | .orLong left right => fallB (binInPlace b orV left right)
  | .orIntDst d l r => fallB (binDst b orV d l r)
  | .orLongDst d l r => fallB (binDst b orV d l r)
  | .orIntLit8 d l lit => fallB (binLit b orLit d l lit)
  | .orIntLit16 d l lit => fallB (binLit b orLit d l lit)
  | .invoke _ => fallB (some b)
  | .invokeType _ => fallB (some b)
  | .invokeInterface _ midx regs => do
      let m ← dex.methods[midx]?
      let proto ← dex.protos[m.proto_idx]?
      let sig := proto.sig
      let return_type := proto.return_type
      let class_name := (dex.get_type_name m.class_idx).getD ""
      let cls := (dex.get_class_by_type_name_idx m.class_idx).getD
        ⟨class_name, m.class_idx, []⟩
      let impls := dex.get_implementations_for cls
      let args ← regs.mapM (fun a => b.state.registers[a]?)
      match impls with
      | [(_, new_class)] => do
          let args ←
            match args with
            | [] => none
            | a0 :: restArgs =>
                let _ := a0
                some (Value.object new_class.class_name :: restArgs)
          let li1 := new_class.codes.foldl (fun acc v =>
            if v.method.method_name == m.method_name then
              some (mkFunctionCall v.method.method_name
                (new_class.class_name ++ "->" ++ m.method_name ++ sig)
                new_class.class_name new_class v.method args return_type)
            else acc) b.state.last_instruction
          let li2 :=
            if li1.isNone then
              some (mkFunctionCall m.method_name
                (class_name ++ "->" ++ m.method_name ++ sig)
                class_name cls m args return_type)
            else li1
          some (.fall {b with state := {b.state with last_instruction := li2}} [] [] [])
      | _ =>
          let li := some (mkFunctionCall m.method_name
            (class_name ++ "->" ++ m.method_name ++ sig)
            class_name cls m args return_type)
          some (.fall {b with state := {b.state with last_instruction := li}} [] [] [])
  | .invokeVirtual _ midx regs => do
      let m ← dex.methods[midx]?
      let proto ← dex.protos[m.proto_idx]?
      let class_name := (dex.get_type_name m.class_idx).getD ""
      let cls := (dex.get_class_by_type_name_idx m.class_idx).getD
        ⟨class_name, m.class_idx, []⟩
      let args ← regs.mapM (fun a => b.state.registers[a]?)
      let li := some (mkFunctionCall m.method_name
        (class_name ++ "->" ++ m.method_name ++ proto.sig)
        class_name cls m args proto.return_type)
      some (.fall {b with state := {b.state with last_instruction := li}} [] [] [])
  | .invokeSuper _ midx regs => do
      let m ← dex.methods[midx]?
      let proto ← dex.protos[m.proto_idx]?
      let class_name := (dex.get_type_name m.class_idx).getD ""
      let cls := (dex.get_class_by_type_name_idx m.class_idx).getD
        ⟨class_name, m.class_idx, []⟩
      let args ← regs.mapM (fun a => b.state.registers[a]?)
      let li := some (mkFunctionCall m.method_name
        (class_name ++ "->" ++ m.method_name ++ proto.sig)
        class_name cls m args proto.return_type)
      some (.fall {b with state := {b.state with last_instruction := li}} [] [] [])
  | .invokeDirect _ midx regs => do
      let m ← dex.methods[midx]?
      let proto ← dex.protos[m.proto_idx]?
      let class_name := (dex.get_type_name m.class_idx).getD ""
      let cls := (dex.get_class_by_type_name_idx m.class_idx).getD
        ⟨class_name, m.class_idx, []⟩
      let args ← regs.mapM (fun a => b.state.registers[a]?)
      let li := some (mkFunctionCall m.method_name
        (class_name ++ "->" ++ m.method_name ++ proto.sig)
        class_name cls m args proto.return_type)
      some (.fall {b with state := {b.state with last_instruction := li}} [] [] [])
  | .invokeStatic _ midx regs => do
      let m ← dex.methods[midx]?
      let proto ← dex.protos[m.proto_idx]?
      let class_name := (dex.get_type_name m.class_idx).getD ""
      let cls := (dex.get_class_by_type_name_idx m.class_idx).getD
        ⟨class_name, m.class_idx, []⟩
      let args ← regs.mapM (fun a => b.state.registers[a]?)
      let li := some (mkFunctionCall m.method_name
        (class_name ++ "->" ++ m.method_name ++ proto.sig)
        class_name cls m args proto.return_type)
      some (.fall {b with state := {b.state with last_instruction := li}} [] [] [])
  | .invokeVirtualRange _ midx _ => do
      let m ← dex.methods[midx]?
      let proto ← dex.protos[m.proto_idx]?
      let class_name := (dex.get_type_name m.class_idx).getD ""
      let cls := (dex.get_class_by_type_name_idx m.class_idx).getD
        ⟨class_name, m.class_idx, []⟩
      let li := some (mkFunctionCall m.method_name
        (class_name ++ "->" ++ m.method_name ++ proto.sig)
        class_name cls m [] proto.return_type)
      some (.fall {b with state := {b.state with last_instruction := li}} [] [] [])
  | .invokeSuperRange _ midx _ => do
      let m ← dex.methods[midx]?
      let proto ← dex.protos[m.proto_idx]?
      let class_name := (dex.get_type_name m.class_idx).getD ""
      let cls := (dex.get_class_by_type_name_idx m.class_idx).getD
        ⟨class_name, m.class_idx, []⟩
      let li := some (mkFunctionCall m.method_name
        (class_name ++ "->" ++ m.method_name ++ proto.sig)
        class_name cls m [] proto.return_type)
      some (.fall {b with state := {b.state with last_instruction := li}} [] [] [])
  | .invokeDirectRange _ midx _ => do
      let m ← dex.methods[midx]?
      let proto ← dex.protos[m.proto_idx]?
      let class_name := (dex.get_type_name m.class_idx).getD ""
      let cls := (dex.get_class_by_type_name_idx m.class_idx).getD
        ⟨class_name, m.class_idx, []⟩
      let li := some (mkFunctionCall m.method_name
        (class_name ++ "->" ++ m.method_name ++ proto.sig)
        class_name cls m [] proto.return_type)
      some (.fall {b with state := {b.state with last_instruction := li}} [] [] [])
  | .invokeStaticRange _ midx _ => do
      let m ← dex.methods[midx]?
      let proto ← dex.protos[m.proto_idx]?
      let class_name := (dex.get_type_name m.class_idx).getD ""
      let cls := (dex.get_class_by_type_name_idx m.class_idx).getD
        ⟨class_name, m.class_idx, []⟩
      let li := some (mkFunctionCall m.method_name
        (class_name ++ "->" ++ m.method_name ++ proto.sig)
        class_name cls m [] proto.return_type)
      some (.fall {b with state := {b.state with last_instruction := li}} [] [] [])
  | .invokeInterfaceRange _ midx _ => do
      let m ← dex.methods[midx]?
      let proto ← dex.protos[m.proto_idx]?
      let class_name := (dex.get_type_name m.class_idx).getD ""
      let cls := (dex.get_class_by_type_name_idx m.class_idx).getD
        ⟨class_name, m.class_idx, []⟩
      let li := some (mkFunctionCall m.method_name
        (class_name ++ "->" ++ m.method_name ++ proto.sig)
        class_name cls m [] proto.return_type)
      some (.fall {b with state := {b.state with last_instruction := li}} [] [] [])
  | .constLit4 reg val => fallB ((setReg b.state.registers reg (.num val)).map (withRegs b))
  | .constLit16 reg val => fallB ((setReg b.state.registers reg (.num val)).map (withRegs b))
  | .constLit32 reg val => fallB ((setReg b.state.registers reg (.num val)).map (withRegs b))
  | .constString reg strIdx =>
      fallB ((setReg b.state.registers reg
        (((dex.get_string strIdx).map (fun a => Value.string a)).getD
          (.unknown "Ljava/lang/String;"))).map (withRegs b))
  | .constStringJumbo reg strIdx =>
      fallB ((setReg b.state.registers reg
        (((dex.get_string strIdx).map (fun a => Value.string a)).getD
          (.unknown "Ljava/lang/String;"))).map (withRegs b))
  | .constClass reg c =>
      fallB ((setReg b.state.registers reg
        (((dex.get_class_name c).map (fun a => Value.unknown a)).getD
          (.unknown "TYPE NOT FOUND"))).map (withRegs b))
  | .const => fallB (some b)
  | .constWide => fallB (some b)
  | .intToByte d s => do
      let sv ← b.state.registers[s]?
      match sv with
      | .num numb =>
          fallB ((setReg b.state.registers d (.byte (asU8 numb))).map (withRegs b))
      | _ => fallB (some b)
  | .intToChar d s => do
      let sv ← b.state.registers[s]?
      match sv with
      | .num numb =>
          fallB ((setReg b.state.registers d (.char (asU8 numb))).map (withRegs b))
      | _ => fallB (some b)
  | .arrayLength d arr => do
      let av ← b.state.registers[arr]?
      match av with
      | .bytes v =>
          fallB ((setReg b.state.registers d (.num (Int.ofNat v.length))).map (withRegs b))
      | _ => fallB ((setReg b.state.registers d .invalid).map (withRegs b))
  | .newInstance reg ty =>
      match dex.get_type_name ty with
      | some type_name =>
          fallB ((setReg b.state.registers reg (.object type_name)).map (withRegs b))
      | none =>
          fallB ((setReg b.state.registers reg (.unknown "UNKNOWN")).map (withRegs b))
  | .newInstanceType _ => fallB (some b)
  | .newArray _ _ _ => fallB (some b)
  | .filledNewArray _ _ _ => fallB (some b)
  | .filledNewArrayRange _ _ _ => fallB (some b)
  | .fillArrayData _ _ => fallB (some b)
  | .arrayGetByte dst arrReg indexReg => do
      let av ← b.state.registers[arrReg]?
      let iv ← b.state.registers[indexReg]?
      match av, iv with
      | .bytes a, .num index => do
          let v ← a[asUsize index]?
          fallB ((setReg b.state.registers dst (.byte v)).map (withRegs b))
      | _, _ => fallB ((setReg b.state.registers dst .empty).map (withRegs b))
  | .arrayPutByte src arrReg indexReg => do
      let iv ← b.state.registers[indexReg]?
      let index := match iv with | .num n => some n | _ => none
      let sv ← b.state.registers[src]?
      let byte := match sv with | .byte v => some v | _ => none
      let av ← b.state.registers[arrReg]?
      match av, index with
      | .bytes a, some index =>
          match byte with
          | some v => do
              let newA ←
                if asUsize index < a.length then some (a.set (asUsize index) v)
                else none
              fallB ((setReg b.state.registers arrReg (.bytes newA)).map (withRegs b))
          | none => fallB (some b)
      | _, _ => fallB (some b)
  | .arrayGetChar dst arrReg indexReg => do
      let av ← b.state.registers[arrReg]?
      let iv ← b.state.registers[indexReg]?
      match av, iv with
      | .bytes a, .num index => do
          let v ← a[asUsize index]?
          fallB ((setReg b.state.registers dst (.char v)).map (withRegs b))
      | _, _ => fallB ((setReg b.state.registers dst .empty).map (withRegs b))
  | .arrayPutChar src arrReg indexReg => do
      let iv ← b.state.registers[indexReg]?
      let index := match iv with | .num n => some n | _ => none
      let sv ← b.state.registers[src]?
      let c := match sv with | .char v => some v | _ => none
      let av ← b.state.registers[arrReg]?
      match av, index with
      | .bytes a, some index =>
          match c with
          | some v => do
              let newA ←
                if asUsize index < a.length then some (a.set (asUsize index) (v % 256))
                else none
              fallB ((setReg b.state.registers arrReg (.bytes newA)).map (withRegs b))
          | none => fallB (some b)
      | _, _ => fallB (some b)
  | .staticGet dst fidx | .staticGetObject dst fidx | .staticGetBoolean dst fidx
  | .staticGetByte dst fidx | .staticGetChar dst fidx | .staticGetShort dst fidx => do
      let regs ← setReg b.state.registers dst .empty
      let b := withRegs b regs
      match dex.fields[fidx]? with
      | some field =>
          let class_name := (dex.get_type_name field.class_idx).getD ""
          let cls := (dex.get_class_by_type field.class_idx).getD
            ⟨class_name, field.class_idx, []⟩
          let li := some (LastInstruction.readStaticField dex class_name cls field field.name)
          some (.fall {b with state := {b.state with last_instruction := li}} [] [] [])
      | none => some (.fall b [] [] [])
  | .staticGetWide dst fidx => do
      let regs ← setReg b.state.registers dst .empty
      let regs ← setReg regs (dst + 1) .empty
      let b := withRegs b regs
      match dex.fields[fidx]? with
      | some field =>
          let class_name := (dex.get_type_name field.class_idx).getD ""
          let cls := (dex.get_class_by_type_name_idx field.class_idx).getD
            ⟨class_name, field.class_idx, []⟩
          let li := some (LastInstruction.readStaticField dex class_name cls field field.name)
          some (.fall {b with state := {b.state with last_instruction := li}} [] [] [])
      | none => some (.fall b [] [] [])
  | .staticPut _ _ => fallB (some b)
  | .staticPutWide _ _ => fallB (some b)
  | .staticPutObject _ _ => fallB (some b)
  | .staticPutBoolean _ _ => fallB (some b)
  | .staticPutByte _ _ => fallB (some b)
  | .staticPutChar _ _ => fallB (some b)
  | .staticPutShort _ _ => fallB (some b)
  | .instanceGet dst _ _ | .instanceGetObject dst _ _ | .instanceGetShort dst _ _
  | .instanceGetBoolean dst _ _ | .instanceGetByte dst _ _ | .instanceGetChar dst _ _ =>
      fallB ((setReg b.state.registers dst .empty).map (withRegs b))
  | .instanceGetWide dst _ _ => do
      let regs ← setReg b.state.registers dst .empty
      let regs ← setReg regs (dst + 1) .empty
      fallB (some (withRegs b regs))
  | .instancePut _ _ _ => fallB (some b)
  | .instancePutWide _ _ _ => fallB (some b)
  | .instancePutObject _ _ _ => fallB (some b)
  | .instancePutBoolean _ _ _ => fallB (some b)
  | .instancePutByte _ _ _ => fallB (some b)
  | .instancePutChar _ _ _ => fallB (some b)
  | .instancePutShort _ _ _ => fallB (some b)
  | .move dst src | .moveObject dst src => do
      let sv ← b.state.registers[src]?
      fallB ((setReg b.state.registers dst sv).map (withRegs b))
  | .move16 dst src | .moveObject16 dst src => do
      let sv ← b.state.registers[src]?
      fallB ((setReg b.state.registers dst sv).map (withRegs b))
  | .moveResult reg | .moveResultWide reg | .moveResultObject reg =>
      match b.state.last_instruction with
      | some function_call =>
          fallB ((setReg b.state.registers reg (.var function_call)).map (withRegs b))
      | none => fallB (some b)
  | .moveFrom16 dst _ | .moveWideFrom16 dst _ | .moveObjectFrom16 dst _ =>
      fallB ((setReg b.state.registers dst .empty).map (withRegs b))
  | .moveWide dst _ => fallB ((setReg b.state.registers dst .empty).map (withRegs b))
  | .moveWide16 dst _ => fallB ((setReg b.state.registers dst .empty).map (withRegs b))
  | .returnVoid => some (.early {b with finished := true} [] [] [])
  | .ret _ => some (.early {b with finished := true} [] [] [])
  | .throw _ => some (.early {b with finished := true} [] [] [])
  | .notImpl _ _ =>
      some (.fall {b with state := {b.state with
        registers := b.state.registers.map (fun _ => Value.empty)}} [] [b.id] [])
  | .arrayData _ _ => fallB (some b)
  | .switchData _ => fallB (some b)
  | .shrIntLit8 d l lit => fallB (binLit b shrLit d l lit)
  | .ushrIntLit8 d l lit => fallB (binLit b ushrLit d l lit)
  | .nop => fallB (some b)

/-- `matches!(li, Some(LastInstruction::FunctionCall { .. }))`. -/
def isFunctionCallLI : Option LastInstruction → Bool
  | some (.functionCall _ _ _ _ _ _ _) => true
  | _ => false

/-- One branch's share of `next_instruction`: the non-advancing-pc
guard, the fetch, the dispatch, the stale-FunctionCall reset and the
fall-through pc advance.  none means the Rust closure panics. -/
def stepBranch (conservative : Bool) (dex : DexFile) (method : MethodMap)
    (log : List (Nat × Int)) (b : Branch) : Option StepResult :=
  if b.pc ≠ 0 ∧ b.previous_pc = b.pc then
    some ⟨{b with finished := true}, [], [], []⟩
  else
    let b := {b with previous_pc := b.pc}
    match lookupInstr method b.pc with
    | none => some ⟨{b with finished := true}, [], [], []⟩
    | some (sz, instr) =>
        match dispatch conservative dex method log sz b instr with
        | none => none
        | some (.early b1 fks tts lgs) => some ⟨b1, fks, tts, lgs⟩
        | some (.fall b1 fks tts lgs) =>
            let b2 :=
              if !is_function_call instr && !is_move_result instr &&
                  isFunctionCallLI b1.state.last_instruction then
                {b1 with state := {b1.state with last_instruction := none}}
              else b1
            some ⟨{b2 with pc := b2.pc + Int.ofNat (sz / 2)}, fks, tts, lgs⟩

/-- `struct InstructionFlow`. -/
structure Flow where
  branches : List Branch
  method : MethodMap
  dex : DexFile
  register_size : Nat
  already_branched : List (Nat × Int)
  conservative : Bool

/-- Sequential linearization of the parallel fan-out over all
non-finished branches: returns the stepped branch list together with
the final already_branched list and the accumulated fork and taint
requests; none when some branch's step panics. -/
def runBranches (conservative : Bool) (dex : DexFile) (method : MethodMap) :
    List (Nat × Int) → List Branch →
    Option (List Branch × List (Nat × Int) × List (Int × Branch) × List Nat)
  | log, [] => some ([], log, [], [])
  | log, b :: rest =>
      if b.finished then
        (runBranches conservative dex method log rest).map
          (fun out => (b :: out.1, out.2.1, out.2.2.1, out.2.2.2))
      else
        match stepBranch conservative dex method log b with
        | none => none
        | some r =>
            (runBranches conservative dex method (log ++ r.logAdds) rest).map
              (fun out => (r.branch :: out.1, out.2.1, r.forks ++ out.2.2.1,
                r.taints ++ out.2.2.2))

/-- `{b with state.tainted := true}`. -/
def withTaint (b : Branch) : Branch :=
  {b with state := {b.state with tainted := true}}

/-- `taint_recursively`: taint every branch with the given id and
recurse into the branches whose parent_id is that id (skipping
branches whose own id equals it).  The Rust recursion is unbounded;
the fuel parameter makes it structural — callers pass one more than
the branch count, which reproduces the Rust behaviour on every state
whose parent links are acyclic (as reachable states are, their ids
being freshly drawn). -/
def taintRec : Nat → Nat → List Branch → List Branch
  | 0, _, bs => bs
  | fuel + 1, id, bs =>
      let bs1 := bs.map (fun b => if b.id = id then withTaint b else b)
      let children :=
        (bs.filter (fun b => b.id != id && b.parent_id == some id)).map
          (fun b => b.id)
      children.foldl (fun acc c => taintRec fuel c acc) bs1

/-- The post-tick taint drain: `for b_to_taint in branches_to_taint {
taint_recursively(b_to_taint, &mut self.branches) }`. -/
def drainTaints : List Nat → List Branch → List Branch
  | [], bs => bs
  | t :: rest, bs => drainTaints rest (taintRec (bs.length + 1) t bs)

/-- The post-tick fork admission: `let id = self.fork(b);
self.already_branched.push((id, offset))`, with fresh branch/state ids
drawn from the id stream. -/
def admitForks (ids : Nat → Nat × Nat) :
    Nat → List (Int × Branch) → List Branch → List (Nat × Int) →
    List Branch × List (Nat × Int)
  | _, [], bs, log => (bs, log)
  | n, (off, nb) :: rest, bs, log =>
      admitForks ids (n + 1) rest
        (bs ++ [{nb with id := (ids n).1, state := {nb.state with id := (ids n).2}}])
        (log ++ [((ids n).1, off)])

/-- `InstructionFlow::next_instruction`: one tick.  Steps every
non-finished branch, stores the grown revisit log, drains the taint
requests through `taint_recursively`, then admits the pending forks if
fewer than 1000 branches are live.  none when a branch's step
panics. -/
def nextInstruction (ids : Nat → Nat × Nat) (f : Flow) : Option Flow :=
  match runBranches f.conservative f.dex f.method f.already_branched f.branches with
  | none => none
  | some (bs, log, forks, taints) =>
      let bs1 := drainTaints taints bs
      if bs1.length < 1000 then
        let admitted := admitForks ids 0 forks bs1 log
        some {f with branches := admitted.1, already_branched := admitted.2}
      else
        some {f with branches := bs1, already_branched := log}

/-- `InstructionFlow::new_branch` (the bare creation used by reset and
the queries, capped at 10 root branches). -/
def newBranch (ids0 : Nat × Nat) (f : Flow) (pc : Int) (parent_id : Option Nat) :
    Flow :=
  if f.branches.length > 10 then f
  else
    {f with branches := f.branches ++
      [⟨parent_id, ids0.1, pc,
        ⟨ids0.2, List.replicate f.register_size Value.empty, none, false, []⟩,
        pc, false⟩]}

/-- `InstructionFlow::reset`: clear the branches and the revisit log,
then seed one fresh branch at the start offset. -/
def reset (ids0 : Nat × Nat) (f : Flow) (start : Nat) : Flow :=
  newBranch ids0 {f with branches := [], already_branched := []}
    (Int.ofNat start) none

/-- `InstructionFlow::is_done`: tests emptiness of the branch list
itself. -/
def isDone (f : Flow) : Bool := f.branches.isEmpty

/-- `InstructionFlow::get_all_states`. -/
def get_all_states (f : Flow) : List State := f.branches.map (fun b => b.state)

/-- Pointwise relation between two branch lists: the second is the
first with the taint flag possibly raised on some entries and nothing
else changed. -/
def PtTaint (bs bsOut : List Branch) : Prop :=
  bsOut.length = bs.length ∧
    ∀ (i : Nat) (b : Branch),
      bs[i]? = some b → bsOut[i]? = some b ∨ bsOut[i]? = some (withTaint b)

/-- `cid` is the id of a strict descendant of the branch id `root`
through parent_id links among the branches of `bs`, in `n ≥ 1` steps;
each link additionally satisfies the side condition of
`taint_recursively` (the child's own id differs from the id being
tainted, which automatically holds when ids are distinct). -/
inductive Desc (bs : List Branch) : Nat → Nat → Nat → Prop where
  | base (root : Nat) (b : Branch) (hmem : b ∈ bs)
      (hpar : b.parent_id = some root) (hne : b.id ≠ root) :
      Desc bs root b.id 1
  | step (root : Nat) (b : Branch) (cid n : Nat) (hmem : b ∈ bs)
      (hpar : b.parent_id = some root) (hne : b.id ≠ root)
      (hsub : Desc bs b.id cid n) : Desc bs root cid (n + 1)

/-- An empty DEX symbol view, used by the concrete evaluations
below. -/
def exDex : DexFile :=
  ⟨[], [], [], fun _ => none, fun _ => none, fun _ => none, fun _ => none,
    fun _ => none, fun _ => []⟩

/-- A concrete class record. -/
def exCls : Class := ⟨"LC;", 0, []⟩

/-- A concrete field record. -/
def exField : Field := ⟨"f", 0⟩

/-- A concrete non-FunctionCall LastInstruction (a static-field
read). -/
def exRSF : LastInstruction := .readStaticField exDex "LC;" exCls exField "f"

/-- A deterministic id stream for fork admission. -/
def exIds : Nat → Nat × Nat := fun _ => (100, 101)

/-- A finished branch. -/
def exBranchC3 : Branch := ⟨none, 1, 0, ⟨11, [Value.empty], none, false, []⟩, 0, true⟩

/-- An engine holding exactly one branch, which is finished. -/
def exFlowC3 : Flow := ⟨[exBranchC3], [], exDex, 1, [], false⟩

/-- A method whose instruction at offset 0 is aget-byte v2, v0, v1. -/
def exMethodC5 : MethodMap := [(0, (4, .arrayGetByte 2 0 1))]

/-- A branch about to run aget-byte on an empty Bytes array with
index Number 0. -/
def exBranchC5 : Branch :=
  ⟨none, 1, 0, ⟨11, [Value.bytes [], Value.num 0, Value.empty], none, false, []⟩,
    0, false⟩

/-- A branch about to run aget-byte on a one-element Bytes array with
index Number 0 (in range). -/
def exBranchC5b : Branch :=
  ⟨none, 1, 0, ⟨11, [Value.bytes [7], Value.num 0, Value.empty], none, false, []⟩,
    0, false⟩

/-- A method whose instruction at offset 0 is sget-wide v0. -/
def exMethodC5w : MethodMap := [(0, (4, .staticGetWide 0 0))]

/-- A branch with two registers about to run sget-wide v0. -/
def exBranchC5w : Branch :=
  ⟨none, 1, 0, ⟨11, [Value.empty, Value.empty], none, false, []⟩, 0, false⟩

/-- A method whose instruction at offset 0 is move-result v0. -/
def exMethodC6 : MethodMap := [(0, (2, .moveResult 0))]

/-- A branch whose last_instruction is a ReadStaticField, about to run
move-result v0. -/
def exBranchC6 : Branch :=
  ⟨none, 1, 0, ⟨11, [Value.empty], some exRSF, false, []⟩, 0, false⟩

/-- A finished, untainted branch with id 1. -/
def exBranchC7A : Branch := ⟨none, 1, 3, ⟨11, [], none, false, []⟩, 3, true⟩

/-- A live branch with id 2 about to revisit the test at offset 0. -/
def exBranchC7B : Branch := ⟨none, 2, 0, ⟨12, [], none, false, []⟩, 5, false⟩

/-- A method with if-eqz at offset 0. -/
def exMethodC7 : MethodMap := [(0, (4, .testZero .equal 0 4))]

/-- An engine whose revisit log already holds branch 2 at the test
offset 0 and the finished branch 1 at another offset. -/
def exFlowC7 : Flow :=
  ⟨[exBranchC7A, exBranchC7B], exMethodC7, exDex, 0, [(2, 0), (1, 5)], false⟩

/-- A live branch with id 1 about to revisit the test at offset 0. -/
def exBranchC8 : Branch := ⟨none, 1, 0, ⟨11, [], none, false, []⟩, 5, false⟩

/-- A method with if-eq at offset 0. -/
def exMethodC8 : MethodMap := [(0, (4, .test .equal 0 0 4))]

/-- An engine whose revisit log already holds (1, 0). -/
def exFlowC8 : Flow := ⟨[exBranchC8], exMethodC8, exDex, 0, [(1, 0)], false⟩

/-- A root branch with id 1. -/
def exBranchC9R : Branch := ⟨none, 1, 0, ⟨11, [], none, false, []⟩, 0, false⟩

/-- A child branch with id 2 whose parent is branch 1. -/
def exBranchC9C : Branch := ⟨some 1, 2, 0, ⟨12, [], none, false, []⟩, 0, false⟩

/-- A two-branch list: a root and its child. -/
def exBsC9 : List Branch := [exBranchC9R, exBranchC9C]

/-- A one-register engine with an empty method map. -/
def exFlowC10 : Flow := ⟨[], [], exDex, 1, [], false⟩

/-- A method whose instruction at offset 0 is const/4 v0, 5. -/
def exMethodC10 : MethodMap := [(0, (4, .constLit4 0 5))]

/-- A one-register engine over that method. -/
def exFlowC10b : Flow := ⟨[], exMethodC10, exDex, 1, [], false⟩

/-- A Variable never projects to a number. -/
theorem try_get_number_var (li : LastInstruction) :
    (Value.var li).try_get_number = none := rfl

/-- A Variable is a Variable. -/
theorem isVariable_var (li : LastInstruction) :
    (Value.var li).isVariable = true := rfl

/-- A value that projects to a number is not a Variable. -/
theorem not_var_of_try_get_number (x : Value) (n : Int)
    (hx : x.try_get_number = some n) : x.isVariable = false := by
  cases x <;> first | rfl | exact Option.noConfusion hx

/-- C1: the claim states that every operator folds two Numbers with the
operator's own 128-bit semantics, in particular `Number(a) / Number(b)
= Number(a / b)`.  The `Div for &Value` fold computes `lhs * rhs`, so
`Number(6) / Number(3)` evaluates to `Number(18)` where the claim (and
the spec, which flags this code path as a likely bug and prescribes
true division) requires `Number(2)`. -/
theorem c1_div_on_values_multiplies :
    divV (Value.num 6) (Value.num 3) = some (Value.num 18) := rfl

/-- C2 counterexample: the i128-literal Rem form has no zero guard, so
`&Value::Number(5) % 0` evaluates `5 % 0` and panics (modelled as
none) instead of returning Value::Invalid. -/
theorem c2_counterexample :
    remLit (Value.num 5) 0 = none ∧ remLit (Value.num 5) 0 ≠ some Value.invalid := by
  refine ⟨rfl, fun h => ?_⟩
  rw [show remLit (Value.num 5) 0 = none from rfl] at h
  exact Option.noConfusion h

/-- C2 (amended): only the &Value/&Value Rem form guards a zero right
operand with Invalid; the &Value/&Value Div form does not fault on
zero but returns Number(a * 0) = Number(0) because its fold
multiplies; the i128-literal Div and Rem forms fault (divide-by-zero
panic) on a zero literal. -/
theorem c2_amended :
    (∀ a : Int, remV (Value.num a) (Value.num 0) = some Value.invalid) ∧
    (∀ a : Int, divV (Value.num a) (Value.num 0) = some (Value.num 0)) ∧
    (∀ a : Int, remLit (Value.num a) 0 = none) ∧
    (∀ a : Int, divLit (Value.num a) 0 = none) := by
  refine ⟨fun a => rfl, fun a => ?_, fun a => rfl, fun a => rfl⟩
  show some (Value.num (wrap128 (a * 0))) = some (Value.num 0)
  norm_num [wrap128, i128Half, i128Size]

/-- C3 counterexample: an engine holding exactly one branch, which is
finished (the not-finished set is empty), is not reported as done —
is_done() is false, refuting the claim. -/
theorem c3_counterexample :
    isDone exFlowC3 = false ∧ exFlowC3.branches.all (fun b => b.finished) = true :=
  ⟨rfl, rfl⟩

/-- C3 (amended): is_done() returns true exactly when the branch list
itself is empty; marking a branch finished never removes it, so an
engine holding at least one branch — even with every branch finished —
is not reported done. -/
theorem c3_amended (f : Flow) : isDone f = true ↔ f.branches = [] := by
  simp [isDone, List.isEmpty_iff]

/-- C4 counterexample: with a numeric left operand and a Variable right
operand, xor, shr and ushr all return Invalid instead of the deferred
Variable(BinaryOperation) the claim requires (xor never tests the
right operand for Variable; shr and ushr test the left operand again
in the right operand's fallback). -/
theorem c4_counterexample :
    xorV (Value.num 1) (Value.var exRSF) ≠
      some (Value.var (.binaryOperation (Value.num 1) (Value.var exRSF) Op.xor)) ∧
    shrV (Value.num 1) (Value.var exRSF) ≠
      some (Value.var (.binaryOperation (Value.num 1) (Value.var exRSF) Op.shr)) ∧
    ushrV (Value.num 1) (Value.var exRSF) ≠
      some (Value.var (.binaryOperation (Value.num 1) (Value.var exRSF) Op.ushr)) := by
  refine ⟨fun h => ?_, fun h => ?_, fun h => ?_⟩
  · rw [show xorV (Value.num 1) (Value.var exRSF) = some Value.invalid from rfl] at h
    exact Value.noConfusion (Option.some.inj h)
  · rw [show shrV (Value.num 1) (Value.var exRSF) = some Value.invalid from rfl] at h
    exact Value.noConfusion (Option.some.inj h)
  · rw [show ushrV (Value.num 1) (Value.var exRSF) = some Value.invalid from rfl] at h
    exact Value.noConfusion (Option.some.inj h)

set_option maxHeartbeats 1000000 in
/-- C4 (amended), for the &Value/&Value operator forms: a Variable left
operand defers to Variable(BinaryOperation{left, right, op}) for every
operator; a Variable right operand under a numeric left operand defers
for and, or, rem, add, sub, mul, div and shl, but yields Invalid for
xor, shr and ushr (xor has no right-operand Variable test; shr and
ushr test the left operand in the right operand's fallback, which is
dead there). -/
theorem c4_amended (li li2 : LastInstruction) (x : Value) (n : Int)
    (hx : x.try_get_number = some n) :
    (∀ y, xorV (Value.var li) y =
      some (Value.var (.binaryOperation (Value.var li) y Op.xor))) ∧
    (∀ y, andV (Value.var li) y =
      some (Value.var (.binaryOperation (Value.var li) y Op.and))) ∧
    (∀ y, orV (Value.var li) y =
      some (Value.var (.binaryOperation (Value.var li) y Op.or))) ∧
    (∀ y, remV (Value.var li) y =
      some (Value.var (.binaryOperation (Value.var li) y Op.rem))) ∧
    (∀ y, addV (Value.var li) y =
      some (Value.var (.binaryOperation (Value.var li) y Op.add))) ∧
    (∀ y, subV (Value.var li) y =
      some (Value.var (.binaryOperation (Value.var li) y Op.sub))) ∧
    (∀ y, mulV (Value.var li) y =
      some (Value.var (.binaryOperation (Value.var li) y Op.mul))) ∧
    (∀ y, divV (Value.var li) y =
      some (Value.var (.binaryOperation (Value.var li) y Op.div))) ∧
    (∀ y, shlV (Value.var li) y =
      some (Value.var (.binaryOperation (Value.var li) y Op.shl))) ∧
    (∀ y, shrV (Value.var li) y =
      some (Value.var (.binaryOperation (Value.var li) y Op.shr))) ∧
    (∀ y, ushrV (Value.var li) y =
      some (Value.var (.binaryOperation (Value.var li) y Op.ushr))) ∧
    (andV x (Value.var li2) =
      some (Value.var (.binaryOperation x (Value.var li2) Op.and))) ∧
    (orV x (Value.var li2) =
      some (Value.var (.binaryOperation x (Value.var li2) Op.or))) ∧
    (remV x (Value.var li2) =
      some (Value.var (.binaryOperation x (Value.var li2) Op.rem))) ∧
    (addV x (Value.var li2) =
      some (Value.var (.binaryOperation x (Value.var li2) Op.add))) ∧
    (subV x (Value.var li2) =
      some (Value.var (.binaryOperation x (Value.var li2) Op.sub))) ∧
    (mulV x (Value.var li2) =
      some (Value.var (.binaryOperation x (Value.var li2) Op.mul))) ∧
    (divV x (Value.var li2) =
      some (Value.var (.binaryOperation x (Value.var li2) Op.div))) ∧
    (shlV x (Value.var li2) =
      some (Value.var (.binaryOperation x (Value.var li2) Op.shl))) ∧
    (xorV x (Value.var li2) = some Value.invalid) ∧
    (shrV x (Value.var li2) = some Value.invalid) ∧
    (ushrV x (Value.var li2) = some Value.invalid) := by
  refine ⟨fun y => rfl, fun y => rfl, fun y => rfl, fun y => rfl, fun y => rfl,
    fun y => rfl, fun y => rfl, fun y => rfl, fun y => rfl, fun y => rfl,
    fun y => rfl, ?_, ?_, ?_, ?_, ?_, ?_, ?_, ?_, ?_, ?_, ?_⟩ <;>
    simp only [andV, orV, remV, addV, subV, mulV, divV, shlV, xorV, shrV, ushrV,
      hx, try_get_number_var, isVariable_var, if_true,
      not_var_of_try_get_number x n hx, Bool.false_eq_true, if_false]

/-- C4 witness: the amended theorem applied at left operand Number(1)
(which projects to 1) and the concrete Variable right operand. -/
theorem c4_amended_witness :
    andV (Value.num 1) (Value.var exRSF) =
      some (Value.var (.binaryOperation (Value.num 1) (Value.var exRSF) Op.and)) :=
  (c4_amended exRSF exRSF (Value.num 1) 1 rfl).2.2.2.2.2.2.2.2.2.2.2.1

/-- C5 counterexample: one tick is not total — aget-byte on an empty
Bytes array with index Number(0) indexes the Vec out of bounds and
panics (modelled as none), refuting the claim that an arbitrary Number
index returns. -/
theorem c5_counterexample :
    stepBranch false exDex exMethodC5 [] exBranchC5 = none := rfl

set_option maxHeartbeats 1000000 in
/-- C5 (amended): one tick of next_instruction may fault on
out-of-range indexing, but the arms the claim names do return at
in-range indices: aget-byte and aget-char on a Bytes array whose
Number index is within the array (and whose register operands are in
range) return, and static-get-wide returns when dst+1 is within the
register file (its field lookup itself is Option-guarded). -/
theorem c5_amended :
    (∀ (c : Bool) (dex : DexFile) (m : MethodMap) (L : List (Nat × Int))
        (b : Branch) (sz d ar ix : Nat) (a : List Nat) (n : Int),
      lookupInstr m b.pc = some (sz, .arrayGetByte d ar ix) →
      (b.pc = 0 ∨ b.previous_pc ≠ b.pc) →
      b.state.registers[ar]? = some (.bytes a) →
      b.state.registers[ix]? = some (.num n) →
      asUsize n < a.length →
      d < b.state.registers.length →
      (stepBranch c dex m L b).isSome = true) ∧
    (∀ (c : Bool) (dex : DexFile) (m : MethodMap) (L : List (Nat × Int))
        (b : Branch) (sz d ar ix : Nat) (a : List Nat) (n : Int),
      lookupInstr m b.pc = some (sz, .arrayGetChar d ar ix) →
      (b.pc = 0 ∨ b.previous_pc ≠ b.pc) →
      b.state.registers[ar]? = some (.bytes a) →
      b.state.registers[ix]? = some (.num n) →
      asUsize n < a.length →
      d < b.state.registers.length →
      (stepBranch c dex m L b).isSome = true) ∧
    (∀ (c : Bool) (dex : DexFile) (m : MethodMap) (L : List (Nat × Int))
        (b : Branch) (sz d fidx : Nat),
      lookupInstr m b.pc = some (sz, .staticGetWide d fidx) →
      (b.pc = 0 ∨ b.previous_pc ≠ b.pc) →
      d + 1 < b.state.registers.length →
      (stepBranch c dex m L b).isSome = true) := by
  refine ⟨?_, ?_, ?_⟩
  · intro c dex m L b sz d ar ix a n hf hg hra hri hlen hd
    have hng : ¬(b.pc ≠ 0 ∧ b.previous_pc = b.pc) := by
      rcases hg with h | h
      · exact fun hc => hc.1 h
      · exact fun hc => h hc.2
    simp [stepBranch, hng, hf, dispatch, hra, hri,
      List.getElem?_eq_getElem hlen, setReg, hd, fallB, withRegs]
  · intro c dex m L b sz d ar ix a n hf hg hra hri hlen hd
    have hng : ¬(b.pc ≠ 0 ∧ b.previous_pc = b.pc) := by
      rcases hg with h | h
      · exact fun hc => hc.1 h
      · exact fun hc => h hc.2
    simp [stepBranch, hng, hf, dispatch, hra, hri,
      List.getElem?_eq_getElem hlen, setReg, hd, fallB, withRegs]
  · intro c dex m L b sz d fidx hf hg hd1
    have hng : ¬(b.pc ≠ 0 ∧ b.previous_pc = b.pc) := by
      rcases hg with h | h
      · exact fun hc => hc.1 h
      · exact fun hc => h hc.2
    have hd : d < b.state.registers.length := Nat.lt_of_succ_lt hd1
    cases hfld : dex.fields[fidx]? <;>
      simp [stepBranch, hng, hf, dispatch, setReg, hd, List.length_set, hd1,
        withRegs, hfld]

/-- C5 witness: the amended theorem applied at the in-range aget-byte
fixture and the two-register sget-wide fixture. -/
theorem c5_amended_witness :
    (stepBranch false exDex exMethodC5 [] exBranchC5b).isSome = true ∧
    (stepBranch false exDex exMethodC5w [] exBranchC5w).isSome = true :=
  ⟨c5_amended.1 false exDex exMethodC5 [] exBranchC5b 4 2 0 1 [7] 0 rfl
      (Or.inl rfl) rfl rfl (by decide) (by decide),
    c5_amended.2.2 false exDex exMethodC5w [] exBranchC5w 4 0 0 rfl
      (Or.inl rfl) (by decide)⟩

set_option maxHeartbeats 1000000 in
/-- C6 (amended): move-result (and its wide/object forms) assigns
Variable(clone of last_instruction) whenever last_instruction is Some
of any LastInstruction variant — not only a FunctionCall — and leaves
the registers unchanged only when last_instruction is None. -/
theorem c6_amended (c : Bool) (dex : DexFile) (m : MethodMap) (L : List (Nat × Int))
    (b : Branch) (sz : Nat) (i : Instr) (reg : Nat)
    (hguard : b.pc = 0 ∨ b.previous_pc ≠ b.pc)
    (hfetch : lookupInstr m b.pc = some (sz, i))
    (hmv : i = .moveResult reg ∨ i = .moveResultWide reg ∨ i = .moveResultObject reg) :
    (∀ li, b.state.last_instruction = some li → reg < b.state.registers.length →
      stepBranch c dex m L b =
        some ⟨{b with
          previous_pc := b.pc,
          pc := b.pc + Int.ofNat (sz / 2),
          state := {b.state with
            registers := b.state.registers.set reg (.var li)}}, [], [], []⟩) ∧
    (b.state.last_instruction = none →
      stepBranch c dex m L b =
        some ⟨{b with previous_pc := b.pc, pc := b.pc + Int.ofNat (sz / 2)},
          [], [], []⟩) := by
  have hng : ¬(b.pc ≠ 0 ∧ b.previous_pc = b.pc) := by
    rcases hguard with h | h
    · exact fun hc => hc.1 h
    · exact fun hc => h hc.2
  constructor
  · intro li hli hreg
    rcases hmv with rfl | rfl | rfl <;>
      simp [stepBranch, hng, hfetch, dispatch, hli, setReg, hreg, fallB, withRegs,
        is_move_result, is_function_call]
  · intro hli
    rcases hmv with rfl | rfl | rfl <;>
      simp [stepBranch, hng, hfetch, dispatch, hli, fallB,
        is_move_result, is_function_call, isFunctionCallLI]

/-- C6 witness: the amended theorem applied at the concrete
move-result fixture whose last_instruction is a ReadStaticField. -/
theorem c6_amended_witness :
    stepBranch false exDex exMethodC6 [] exBranchC6 =
      some ⟨{exBranchC6 with
        previous_pc := exBranchC6.pc,
        pc := exBranchC6.pc + Int.ofNat (2 / 2),
        state := {exBranchC6.state with
          registers := exBranchC6.state.registers.set 0 (.var exRSF)}},
        [], [], []⟩ :=
  (c6_amended false exDex exMethodC6 [] exBranchC6 2 (.moveResult 0) 0
      (Or.inl rfl) rfl (Or.inl rfl)).1 exRSF rfl (by decide)

/-- C6 counterexample: move-result with last_instruction =
Some(ReadStaticField) writes Variable(ReadStaticField) into the
destination register, where the claim requires the registers to be
left unchanged for a non-FunctionCall last_instruction. -/
theorem c6_counterexample :
    (stepBranch false exDex exMethodC6 [] exBranchC6).map
        (fun r => r.branch.state.registers) = some [Value.var exRSF] ∧
    exBranchC6.state.registers = [Value.empty] := ⟨rfl, rfl⟩

/-- withTaint is idempotent. -/
theorem withTaint_idem (b : Branch) : withTaint (withTaint b) = withTaint b := rfl

/-- withTaint raises the taint flag. -/
theorem withTaint_tainted (b : Branch) : (withTaint b).state.tainted = true := rfl

/-- withTaint fixes an already-tainted branch. -/
theorem withTaint_of_tainted {b : Branch} (h : b.state.tainted = true) :
    withTaint b = b := by
  cases b with
  | mk pid id pc st ppc fin =>
      cases st with
      | mk sid regs li t lc =>
          cases t
          · exact absurd h (by simp)
          · rfl

/-- PtTaint is reflexive. -/
theorem ptTaint_refl (bs : List Branch) : PtTaint bs bs :=
  ⟨rfl, fun _ _ h => Or.inl h⟩

/-- PtTaint is transitive. -/
theorem ptTaint_trans {as bs cs : List Branch} (h1 : PtTaint as bs)
    (h2 : PtTaint bs cs) : PtTaint as cs := by
  refine ⟨h2.1.trans h1.1, fun i b h => ?_⟩
  rcases h1.2 i b h with hb | hb
  · exact h2.2 i b hb
  · rcases h2.2 i (withTaint b) hb with hc | hc
    · exact Or.inr hc
    · rw [withTaint_idem] at hc
      exact Or.inr hc

/-- The tainting map phase of taint_recursively only raises taint
flags. -/
theorem ptTaint_map (bs : List Branch) (id : Nat) :
    PtTaint bs (bs.map (fun b => if b.id = id then withTaint b else b)) := by
  refine ⟨by simp, fun i b h => ?_⟩
  have hm : (bs.map (fun b => if b.id = id then withTaint b else b))[i]? =
      some (if b.id = id then withTaint b else b) := by
    rw [List.getElem?_map, h]
    rfl
  by_cases hid : b.id = id
  · right
    rw [hm, if_pos hid]
  · left
    rw [hm, if_neg hid]

/-- Folding taint-only steps is taint-only. -/
theorem ptTaint_foldl (g : Nat → List Branch → List Branch)
    (hg : ∀ x acc, PtTaint acc (g x acc)) :
    ∀ (l : List Nat) (acc : List Branch),
      PtTaint acc (l.foldl (fun a x => g x a) acc)
  | [], acc => ptTaint_refl acc
  | x :: rest, acc =>
      ptTaint_trans (hg x acc) (ptTaint_foldl g hg rest (g x acc))

/-- taint_recursively only raises taint flags. -/
theorem ptTaint_taintRec : ∀ (fuel id : Nat) (bs : List Branch),
    PtTaint bs (taintRec fuel id bs)
  | 0, _, bs => ptTaint_refl bs
  | fuel + 1, id, bs =>
      ptTaint_trans (ptTaint_map bs id)
        (ptTaint_foldl (taintRec fuel) (fun x acc => ptTaint_taintRec fuel x acc)
          ((bs.filter (fun b => b.id != id && b.parent_id == some id)).map
            (fun b => b.id))
          (bs.map (fun b => if b.id = id then withTaint b else b)))

/-- taint_recursively preserves the branch count. -/
theorem taintRec_length (fuel id : Nat) (bs : List Branch) :
    (taintRec fuel id bs).length = bs.length :=
  (ptTaint_taintRec fuel id bs).1

/-- A taint-only transformation fixes a tainted entry. -/
theorem ptTaint_fix {as bs : List Branch} (h : PtTaint as bs) (i : Nat)
    (a : Branch) (ha : as[i]? = some a) (ht : a.state.tainted = true) :
    bs[i]? = some a := by
  rcases h.2 i a ha with hb | hb
  · exact hb
  · rw [withTaint_of_tainted ht] at hb
    exact hb

/-- With at least one unit of fuel, taint_recursively taints every
entry carrying the requested id. -/
theorem taintRec_hit (fuel : Nat) (hf : 1 ≤ fuel) (id : Nat) (bs : List Branch)
    (i : Nat) (b : Branch) (hb : bs[i]? = some b) (hid : b.id = id) :
    (taintRec fuel id bs)[i]? = some (withTaint b) := by
  cases fuel with
  | zero => exact absurd hf (by omega)
  | succ fuel =>
      have h1 : (bs.map (fun b => if b.id = id then withTaint b else b))[i]? =
          some (withTaint b) := by
        rw [List.getElem?_map, hb]
        simp [hid]
      have h2 := ptTaint_foldl (taintRec fuel)
        (fun x acc => ptTaint_taintRec fuel x acc)
        ((bs.filter (fun b => b.id != id && b.parent_id == some id)).map
          (fun b => b.id))
        (bs.map (fun b => if b.id = id then withTaint b else b))
      exact ptTaint_fix h2 i (withTaint b) h1 (withTaint_tainted b)

/-- The taint drain only raises taint flags. -/
theorem ptTaint_drain : ∀ (ts : List Nat) (bs : List Branch),
    PtTaint bs (drainTaints ts bs)
  | [], bs => ptTaint_refl bs
  | t :: rest, bs =>
      ptTaint_trans (ptTaint_taintRec (bs.length + 1) t bs)
        (ptTaint_drain rest (taintRec (bs.length + 1) t bs))

/-- The taint drain preserves the branch count. -/
theorem drainTaints_length (ts : List Nat) (bs : List Branch) :
    (drainTaints ts bs).length = bs.length :=
  (ptTaint_drain ts bs).1

/-- The taint drain taints every branch whose id is on the taint
list. -/
theorem drainTaints_hit : ∀ (ts : List Nat) (id : Nat), id ∈ ts →
    ∀ (bs : List Branch) (i : Nat) (b : Branch), bs[i]? = some b → b.id = id →
    (drainTaints ts bs)[i]? = some (withTaint b)
  | [], id, h, _, _, _, _, _ => absurd h (List.not_mem_nil id)
  | t :: rest, id, h, bs, i, b, hb, hid => by
      rcases List.mem_cons.mp h with rfl | hmem
      · have h1 : (taintRec (bs.length + 1) id bs)[i]? = some (withTaint b) :=
          taintRec_hit _ (by omega) id bs i b hb hid
        exact ptTaint_fix (ptTaint_drain rest _) i (withTaint b) h1
          (withTaint_tainted b)
      · rcases (ptTaint_taintRec (bs.length + 1) t bs).2 i b hb with h1 | h1
        · exact drainTaints_hit rest id hmem _ i b h1 hid
        · have h2 := drainTaints_hit rest id hmem _ i (withTaint b) h1 hid
          rw [withTaint_idem] at h2
          exact h2

/-- Descendant chains transport along taint-only transformations (taint
changes neither ids nor parent links). -/
theorem desc_ptTaint {bs bsOut : List Branch} (h : PtTaint bs bsOut) :
    ∀ {root cid n : Nat}, Desc bs root cid n → Desc bsOut root cid n := by
  intro root cid n hd
  induction hd with
  | base root b hmem hpar hne =>
      obtain ⟨i, hi⟩ := List.getElem?_of_mem hmem
      rcases h.2 i b hi with hb | hb
      · exact Desc.base root b (List.getElem?_mem hb) hpar hne
      · exact Desc.base root (withTaint b) (List.getElem?_mem hb) hpar hne
  | step root b cid n hmem hpar hne _ ih =>
      obtain ⟨i, hi⟩ := List.getElem?_of_mem hmem
      rcases h.2 i b hi with hb | hb
      · exact Desc.step root b cid n (List.getElem?_mem hb) hpar hne ih
      · exact Desc.step root (withTaint b) cid n (List.getElem?_mem hb) hpar hne ih

/-- If the recursive call at some id on the worklist taints every entry
with the target id, then the fold over a worklist containing that id
does too. -/
theorem foldl_taint_reach (g : Nat) (x cid : Nat) (bs : List Branch)
    (H : ∀ acc2, PtTaint bs acc2 →
      ∀ (j : Nat) (c : Branch), acc2[j]? = some c → c.id = cid →
      ∃ c2, (taintRec g x acc2)[j]? = some c2 ∧ c2.state.tainted = true) :
    ∀ (children : List Nat) (acc : List Branch), x ∈ children → PtTaint bs acc →
    ∀ (j : Nat) (c : Branch), acc[j]? = some c → c.id = cid →
    ∃ c2, (children.foldl (fun a k => taintRec g k a) acc)[j]? = some c2 ∧
      c2.state.tainted = true
  | [], _, hx, _, _, _, _, _ => absurd hx (List.not_mem_nil x)
  | y :: rest, acc, hx, hacc, j, c, hj, hcid => by
      by_cases hyx : y = x
      · subst hyx
        obtain ⟨c2, hc2, ht2⟩ := H acc hacc j c hj hcid
        have hpt := ptTaint_foldl (taintRec g)
          (fun k a => ptTaint_taintRec g k a) rest (taintRec g y acc)
        exact ⟨c2, ptTaint_fix hpt j c2 hc2 ht2, ht2⟩
      · have hx2 : x ∈ rest := by
          rcases List.mem_cons.mp hx with h | h
          · exact absurd h.symm hyx
          · exact h
        have hacc2 : PtTaint bs (taintRec g y acc) :=
          ptTaint_trans hacc (ptTaint_taintRec g y acc)
        rcases (ptTaint_taintRec g y acc).2 j c hj with h1 | h1
        · exact foldl_taint_reach g x cid bs H rest _ hx2 hacc2 j c h1 hcid
        · exact foldl_taint_reach g x cid bs H rest _ hx2 hacc2 j (withTaint c)
            h1 hcid

/-- taint_recursively reaches every descendant of the tainted id when
the fuel exceeds the chain length. -/
theorem taintRec_desc {bs : List Branch} :
    ∀ {root cid n : Nat}, Desc bs root cid n →
    ∀ (fuel : Nat), n < fuel →
    ∀ (acc : List Branch), PtTaint bs acc →
    ∀ (j : Nat) (c : Branch), acc[j]? = some c → c.id = cid →
    ∃ c2, (taintRec fuel root acc)[j]? = some c2 ∧ c2.state.tainted = true := by
  intro root cid n hd
  induction hd with
  | base root b hmem hpar hne =>
      intro fuel hfuel acc hacc j c hj hcid
      cases fuel with
      | zero => omega
      | succ g =>
          have hg : 1 ≤ g := by omega
          obtain ⟨i, hi⟩ := List.getElem?_of_mem hmem
          have hbacc : ∃ b2, acc[i]? = some b2 ∧ b2.id = b.id ∧
              b2.parent_id = b.parent_id := by
            rcases hacc.2 i b hi with h | h
            · exact ⟨b, h, rfl, rfl⟩
            · exact ⟨withTaint b, h, rfl, rfl⟩
          obtain ⟨b2, hb2, hb2id, hb2par⟩ := hbacc
          have hchild : b.id ∈
              (acc.filter (fun q => q.id != root && q.parent_id == some root)).map
                (fun q => q.id) := by
            refine List.mem_map.mpr ⟨b2, ?_, hb2id⟩
            refine List.mem_filter.mpr ⟨List.getElem?_mem hb2, ?_⟩
            simp [hb2id, hb2par, hpar, hne]
          have hacc1 : PtTaint bs
              (acc.map (fun q => if q.id = root then withTaint q else q)) :=
            ptTaint_trans hacc (ptTaint_map acc root)
          rcases (ptTaint_map acc root).2 j c hj with h1 | h1
          · exact foldl_taint_reach g b.id b.id bs
              (fun acc2 _ j2 c2 hj2 hcid2 =>
                ⟨withTaint c2, taintRec_hit g hg b.id acc2 j2 c2 hj2 hcid2,
                  withTaint_tainted c2⟩)
              _ _ hchild hacc1 j c h1 hcid
          · exact foldl_taint_reach g b.id b.id bs
              (fun acc2 _ j2 c2 hj2 hcid2 =>
                ⟨withTaint c2, taintRec_hit g hg b.id acc2 j2 c2 hj2 hcid2,
                  withTaint_tainted c2⟩)
              _ _ hchild hacc1 j (withTaint c) h1 hcid
  | step root b cid n hmem hpar hne _ ih =>
      intro fuel hfuel acc hacc j c hj hcid
      cases fuel with
      | zero => omega
      | succ g =>
          have hgn : n < g := by omega
          obtain ⟨i, hi⟩ := List.getElem?_of_mem hmem
          have hbacc : ∃ b2, acc[i]? = some b2 ∧ b2.id = b.id ∧
              b2.parent_id = b.parent_id := by
            rcases hacc.2 i b hi with h | h
            · exact ⟨b, h, rfl, rfl⟩
            · exact ⟨withTaint b, h, rfl, rfl⟩
          obtain ⟨b2, hb2, hb2id, hb2par⟩ := hbacc
          have hchild : b.id ∈
              (acc.filter (fun q => q.id != root && q.parent_id == some root)).map
                (fun q => q.id) := by
            refine List.mem_map.mpr ⟨b2, ?_, hb2id⟩
            refine List.mem_filter.mpr ⟨List.getElem?_mem hb2, ?_⟩
            simp [hb2id, hb2par, hpar, hne]
          have hacc1 : PtTaint bs
              (acc.map (fun q => if q.id = root then withTaint q else q)) :=
            ptTaint_trans hacc (ptTaint_map acc root)
          rcases (ptTaint_map acc root).2 j c hj with h1 | h1
          · exact foldl_taint_reach g b.id cid bs
              (fun acc2 hacc2 j2 c2 hj2 hcid2 => ih g hgn acc2 hacc2 j2 c2 hj2 hcid2)
              _ _ hchild hacc1 j c h1 hcid
          · exact foldl_taint_reach g b.id cid bs
              (fun acc2 hacc2 j2 c2 hj2 hcid2 => ih g hgn acc2 hacc2 j2 c2 hj2 hcid2)
              _ _ hchild hacc1 j (withTaint c) h1 hcid

/-- The taint drain taints every descendant of an id on the taint list,
when the chain fits the branch count (chains through distinct branches
always do). -/
theorem drain_desc : ∀ (ts : List Nat) (root : Nat), root ∈ ts →
    ∀ (bs : List Branch) (cid n : Nat), Desc bs root cid n → n ≤ bs.length →
    ∀ (j : Nat) (cb : Branch), bs[j]? = some cb → cb.id = cid →
    ∃ c2, (drainTaints ts bs)[j]? = some c2 ∧ c2.state.tainted = true
  | [], root, h, _, _, _, _, _, _, _, _, _ => absurd h (List.not_mem_nil root)
  | t :: rest, root, h, bs, cid, n, hdesc, hn, j, cb, hj, hcid => by
      rcases List.mem_cons.mp h with rfl | hmem
      · obtain ⟨c2, hc2, ht2⟩ := taintRec_desc hdesc (bs.length + 1) (by omega)
          bs (ptTaint_refl bs) j cb hj hcid
        exact ⟨c2, ptTaint_fix (ptTaint_drain rest _) j c2 hc2 ht2, ht2⟩
      · have hpt := ptTaint_taintRec (bs.length + 1) t bs
        have hdesc2 := desc_ptTaint hpt hdesc
        have hlen2 : n ≤ (taintRec (bs.length + 1) t bs).length := by
          rw [taintRec_length]
          exact hn
        rcases hpt.2 j cb hj with h1 | h1
        · exact drain_desc rest root hmem _ cid n hdesc2 hlen2 j cb h1 hcid
        · exact drain_desc rest root hmem _ cid n hdesc2 hlen2 j (withTaint cb)
            h1 hcid

/-- The linearized fan-out preserves the branch count and positions,
only extends the revisit log, leaves finished branches untouched, and
steps each live branch against some extension of the incoming log,
gathering its taint requests. -/
theorem runBranches_spec (c : Bool) (dex : DexFile) (m : MethodMap)
    (bs : List Branch) :
    ∀ (log : List (Nat × Int)) (bs2 : List Branch) (log2 : List (Nat × Int))
      (fks : List (Int × Branch)) (tts : List Nat),
    runBranches c dex m log bs = some (bs2, log2, fks, tts) →
    bs2.length = bs.length ∧ (∃ e, log2 = log ++ e) ∧
    ∀ (i : Nat) (b : Branch), bs[i]? = some b →
      (b.finished = true → bs2[i]? = some b) ∧
      (b.finished = false → ∃ ext r, stepBranch c dex m (log ++ ext) b = some r ∧
        bs2[i]? = some r.branch ∧ ∀ x ∈ r.taints, x ∈ tts) := by
  induction bs with
  | nil =>
      intro log bs2 log2 fks tts h
      simp only [runBranches, Option.some.injEq, Prod.mk.injEq] at h
      obtain ⟨h1, h2, h3, h4⟩ := h
      subst h1 h2 h3 h4
      refine ⟨rfl, ⟨[], (List.append_nil log).symm⟩, ?_⟩
      intro i b hb
      exact absurd hb (by simp)
  | cons b rest ih =>
      intro log bs2 log2 fks tts h
      simp only [runBranches] at h
      by_cases hf : b.finished
      · rw [if_pos hf] at h
        obtain ⟨⟨bs0, log0, fk0, tt0⟩, hrec, hmap⟩ := Option.map_eq_some'.mp h
        simp only [Prod.mk.injEq] at hmap
        obtain ⟨h1, h2, h3, h4⟩ := hmap
        subst h1 h2 h3 h4
        obtain ⟨hlen, hlog, hidx⟩ := ih log bs0 log0 fk0 tt0 hrec
        refine ⟨by simp [hlen], hlog, ?_⟩
        intro i bb hb
        cases i with
        | zero =>
            simp only [List.getElem?_cons_zero, Option.some.injEq] at hb
            subst hb
            refine ⟨fun _ => by simp, fun hff => ?_⟩
            rw [hf] at hff
            exact Bool.noConfusion hff
        | succ i =>
            simp only [List.getElem?_cons_succ] at hb ⊢
            exact hidx i bb hb
      · rw [if_neg hf] at h
        have hf2 : b.finished = false := by
          cases hfin : b.finished
          · rfl
          · exact absurd hfin hf
        rcases hstep : stepBranch c dex m log b with _ | r
        · rw [hstep] at h
          exact Option.noConfusion h
        · rw [hstep] at h
          obtain ⟨⟨bs0, log0, fk0, tt0⟩, hrec, hmap⟩ := Option.map_eq_some'.mp h
          simp only [Prod.mk.injEq] at hmap
          obtain ⟨h1, h2, h3, h4⟩ := hmap
          subst h1 h2 h3 h4
          obtain ⟨hlen, ⟨e0, hlog⟩, hidx⟩ := ih (log ++ r.logAdds) bs0 log0 fk0 tt0 hrec
          refine ⟨by simp [hlen],
            ⟨r.logAdds ++ e0, by rw [hlog, List.append_assoc]⟩, ?_⟩
          intro i bb hb
          cases i with
          | zero =>
              simp only [List.getElem?_cons_zero, Option.some.injEq] at hb
              subst hb
              refine ⟨fun hft => ?_, fun _ => ?_⟩
              · rw [hf2] at hft
                exact Bool.noConfusion hft
              · refine ⟨[], r, ?_, by simp, ?_⟩
                · rw [List.append_nil]
                  exact hstep
                · intro x hx
                  exact List.mem_append_left _ hx
          | succ i =>
              simp only [List.getElem?_cons_succ] at hb ⊢
              obtain ⟨hfin, hnfin⟩ := hidx i bb hb
              refine ⟨hfin, fun hff => ?_⟩
              obtain ⟨ext, rr, hs, hbs, hsub⟩ := hnfin hff
              refine ⟨r.logAdds ++ ext, rr, ?_, hbs, ?_⟩
              · rw [← List.append_assoc]
                exact hs
              · intro x hx
                exact List.mem_append_right _ (hsub x hx)

/-- Fork admission only appends branches, so existing positions are
unchanged. -/
theorem admitForks_get (ids : Nat → Nat × Nat) :
    ∀ (fks : List (Int × Branch)) (nn : Nat) (bs : List Branch)
      (log : List (Nat × Int)) (i : Nat), i < bs.length →
      ((admitForks ids nn fks bs log).1)[i]? = bs[i]?
  | [], _, _, _, _, _ => rfl
  | (off, nb) :: rest, nn, bs, log, i, hi => by
      have h2 : i < (bs ++ [{nb with id := (ids nn).1, state := {nb.state with id := (ids nn).2}}]).length := by
        simp only [List.length_append, List.length_cons, List.length_nil]
        omega
      have h3 : admitForks ids nn ((off, nb) :: rest) bs log =
          admitForks ids (nn + 1) rest
            (bs ++ [{nb with id := (ids nn).1, state := {nb.state with id := (ids nn).2}}])
            (log ++ [((ids nn).1, off)]) := rfl
      rw [h3, admitForks_get ids rest (nn + 1) _ _ i h2]
      exact List.getElem?_append_left hi

/-- Fork admission only appends to the revisit log. -/
theorem admitForks_log (ids : Nat → Nat × Nat) :
    ∀ (fks : List (Int × Branch)) (nn : Nat) (bs : List Branch)
      (log : List (Nat × Int)),
      ∃ e, (admitForks ids nn fks bs log).2 = log ++ e
  | [], _, _, log => ⟨[], (List.append_nil log).symm⟩
  | (off, nb) :: rest, nn, bs, log => by
      obtain ⟨e, he⟩ := admitForks_log ids rest (nn + 1)
        (bs ++ [{nb with id := (ids nn).1, state := {nb.state with id := (ids nn).2}}])
        (log ++ [((ids nn).1, off)])
      refine ⟨[((ids nn).1, off)] ++ e, ?_⟩
      have h3 : (admitForks ids nn ((off, nb) :: rest) bs log).2 =
          (admitForks ids (nn + 1) rest
            (bs ++ [{nb with id := (ids nn).1, state := {nb.state with id := (ids nn).2}}])
            (log ++ [((ids nn).1, off)])).2 := rfl
      rw [h3, he, List.append_assoc]

/-- Unfolding next_instruction through a successful fan-out. -/
theorem nextInstruction_eq (ids : Nat → Nat × Nat) (f : Flow)
    (bs2 : List Branch) (log2 : List (Nat × Int)) (fks : List (Int × Branch))
    (tts : List Nat)
    (hrun : runBranches f.conservative f.dex f.method f.already_branched
      f.branches = some (bs2, log2, fks, tts)) :
    nextInstruction ids f =
      if (drainTaints tts bs2).length < 1000 then
        some {f with branches := (admitForks ids 0 fks (drainTaints tts bs2) log2).1, already_branched := (admitForks ids 0 fks (drainTaints tts bs2) log2).2}
      else
        some {f with branches := drainTaints tts bs2, already_branched := log2} := by
  unfold nextInstruction
  rw [hrun]

/-- A successful tick decomposes into its fan-out, its taint drain (up
to appended forks) and an append-only log update. -/
theorem nextInstruction_parts (ids : Nat → Nat × Nat) (f fOut : Flow)
    (h : nextInstruction ids f = some fOut) :
    ∃ bs2 log2 fks tts,
      runBranches f.conservative f.dex f.method f.already_branched f.branches =
        some (bs2, log2, fks, tts) ∧
      (∀ j : Nat, j < bs2.length →
        fOut.branches[j]? = (drainTaints tts bs2)[j]?) ∧
      (∃ e, fOut.already_branched = log2 ++ e) := by
  rcases hrun : runBranches f.conservative f.dex f.method f.already_branched
      f.branches with _ | out
  · unfold nextInstruction at h
    rw [hrun] at h
    exact Option.noConfusion h
  · obtain ⟨bs2, log2, fks, tts⟩ := out
    rw [nextInstruction_eq ids f bs2 log2 fks tts hrun] at h
    by_cases hlen : (drainTaints tts bs2).length < 1000
    · rw [if_pos hlen] at h
      have hOut := (Option.some.inj h).symm
      subst hOut
      refine ⟨bs2, log2, fks, tts, rfl, ?_, ?_⟩
      · intro j hj
        have hj2 : j < (drainTaints tts bs2).length := by
          rw [drainTaints_length]
          exact hj
        exact admitForks_get ids fks 0 _ _ j hj2
      · exact admitForks_log ids fks 0 (drainTaints tts bs2) log2
    · rw [if_neg hlen] at h
      have hOut := (Option.some.inj h).symm
      subst hOut
      exact ⟨bs2, log2, fks, tts, rfl, fun j hj => rfl,
        ⟨[], (List.append_nil log2).symm⟩⟩

/-- The revisit path of a conditional test: with (id, pc) already
logged, the step produces no fork, advances pc by size/2 as the
fall-through would, requests taint for the branch itself and for every
id in the log, and touches nothing else. -/
theorem stepBranch_revisit (c : Bool) (dex : DexFile) (m : MethodMap)
    (L : List (Nat × Int)) (b : Branch) (sz : Nat) (instr : Instr)
    (hg : b.pc = 0 ∨ b.previous_pc ≠ b.pc)
    (hf : lookupInstr m b.pc = some (sz, instr))
    (hi : (∃ t l r off, instr = .test t l r off) ∨
      (∃ t l off, instr = .testZero t l off))
    (hin : (b.id, b.pc) ∈ L) :
    stepBranch c dex m L b =
      some ⟨{b with previous_pc := b.pc, pc := b.pc + Int.ofNat (sz / 2)}, [],
        b.id :: L.map (fun p => p.1), []⟩ := by
  have hng : ¬(b.pc ≠ 0 ∧ b.previous_pc = b.pc) := by
    rcases hg with h | h
    · exact fun hc => hc.1 h
    · exact fun hc => h hc.2
  have hany : L.any (fun p => p.2 == b.pc && p.1 == b.id) = true :=
    List.any_eq_true.mpr ⟨(b.id, b.pc), hin, by simp⟩
  rcases hi with ⟨t, l, r, off, rfl⟩ | ⟨t, l, off, rfl⟩ <;>
    simp [stepBranch, hng, hf, dispatch, hany]

/-- C7 counterexample: after one tick of the engine below, the
finished untainted branch 1 has state.tainted flipped to true by the
post-tick taint drain (branch 2 revisits its logged test and requests
taint for every id in the revisit log, including the finished branch
1), refuting the claim that no part of a finished branch's state is
mutated. -/
theorem c7_counterexample :
    exFlowC7.branches.map (fun b => (b.finished, b.state.tainted)) =
      [(true, false), (false, false)] ∧
    (nextInstruction exIds exFlowC7).map
        (fun g => g.branches.map (fun b => (b.finished, b.state.tainted))) =
      some [(true, true), (false, true)] := ⟨rfl, rfl⟩

/-- C7 (amended): once finished, a branch is skipped by the stepping
fan-out, so its pc, registers, last_instruction and loop_count are
never mutated by a tick; the post-tick taint drain may however still
raise state.tainted on it (withTaint changes the taint flag and
nothing else), and taint is the sole field that can change. -/
theorem c7_finished_branch_taint_only (ids : Nat → Nat × Nat) (f : Flow)
    (i : Nat) (b : Branch) (fOut : Flow)
    (hb : f.branches[i]? = some b) (hfin : b.finished = true)
    (hrun : nextInstruction ids f = some fOut) :
    fOut.branches[i]? = some b ∨ fOut.branches[i]? = some (withTaint b) := by
  obtain ⟨bs2, log2, fks, tts, hrb, hget, _⟩ :=
    nextInstruction_parts ids f fOut hrun
  obtain ⟨hlen, _, hidx⟩ := runBranches_spec f.conservative f.dex f.method
    f.branches f.already_branched bs2 log2 fks tts hrb
  have hb2 : bs2[i]? = some b := (hidx i b hb).1 hfin
  have hi2 : i < bs2.length := (List.getElem?_eq_some.mp hb2).1
  rw [hget i hi2]
  exact (ptTaint_drain tts bs2).2 i b hb2

/-- C7 witness: the amended theorem applied at the concrete engine of
the counterexample, for its finished branch at position 0. -/
theorem c7_witness :
    ∃ fOut, nextInstruction exIds exFlowC7 = some fOut ∧
      (fOut.branches[0]? = some exBranchC7A ∨
        fOut.branches[0]? = some (withTaint exBranchC7A)) := by
  cases hrun : nextInstruction exIds exFlowC7 with
  | none =>
      have hs : (nextInstruction exIds exFlowC7).isSome = true := rfl
      rw [hrun] at hs
      exact Bool.noConfusion hs
  | some fOut =>
      exact ⟨fOut, rfl,
        c7_finished_branch_taint_only exIds exFlowC7 0 exBranchC7A fOut rfl rfl
          hrun⟩

/-- C8: a non-finished branch reaching a Test or TestZero at a pc with
(its id, pc) already in the revisit log creates no fork at that step
(and at any later step while logged, which with the append-only log
means never again from that site), advances pc by size/2 as if the
test failed, and after the tick's taint drain it is tainted and so is
every branch whose id appears anywhere in the tick-start revisit
log. -/
theorem c8_revisited_test_no_fork_taints_log (ids : Nat → Nat × Nat) (f : Flow)
    (i : Nat) (b : Branch) (fOut : Flow) (sz : Nat) (instr : Instr)
    (hb : f.branches[i]? = some b) (hnf : b.finished = false)
    (hg : b.pc = 0 ∨ b.previous_pc ≠ b.pc)
    (hf : lookupInstr f.method b.pc = some (sz, instr))
    (hi : (∃ t l r off, instr = .test t l r off) ∨
      (∃ t l off, instr = .testZero t l off))
    (hlog : (b.id, b.pc) ∈ f.already_branched)
    (hrun : nextInstruction ids f = some fOut) :
    (∀ L, (b.id, b.pc) ∈ L →
      stepBranch f.conservative f.dex f.method L b =
        some ⟨{b with previous_pc := b.pc, pc := b.pc + Int.ofNat (sz / 2)}, [],
          b.id :: L.map (fun p => p.1), []⟩) ∧
    fOut.branches[i]? =
      some (withTaint {b with previous_pc := b.pc, pc := b.pc + Int.ofNat (sz / 2)}) ∧
    (∀ (j : Nat) (cb : Branch), j < f.branches.length →
      fOut.branches[j]? = some cb →
      cb.id ∈ f.already_branched.map (fun p => p.1) →
      cb.state.tainted = true) ∧
    (∃ e, fOut.already_branched = f.already_branched ++ e) := by
  obtain ⟨bs2, log2, fks, tts, hrb, hget, hlogext⟩ :=
    nextInstruction_parts ids f fOut hrun
  obtain ⟨hlen, ⟨e0, hlog2⟩, hidx⟩ := runBranches_spec f.conservative f.dex
    f.method f.branches f.already_branched bs2 log2 fks tts hrb
  obtain ⟨ext, r, hstep, hbs2i, htts⟩ := (hidx i b hb).2 hnf
  have hrev := stepBranch_revisit f.conservative f.dex f.method
    (f.already_branched ++ ext) b sz instr hg hf hi
    (List.mem_append_left _ hlog)
  rw [hrev] at hstep
  have hr := Option.some.inj hstep
  subst hr
  have hbid : b.id ∈ tts := htts b.id (List.mem_cons_self _ _)
  have hi2 : i < bs2.length := (List.getElem?_eq_some.mp hbs2i).1
  have hlogtts : ∀ x, x ∈ f.already_branched.map (fun p => p.1) → x ∈ tts := by
    intro x hx
    refine htts x (List.mem_cons_of_mem _ ?_)
    rw [List.map_append]
    exact List.mem_append_left _ hx
  refine ⟨?_, ?_, ?_, ?_⟩
  · intro L hL
    exact stepBranch_revisit f.conservative f.dex f.method L b sz instr hg hf
      hi hL
  · rw [hget i hi2]
    exact drainTaints_hit tts b.id hbid bs2 i _ hbs2i rfl
  · intro j cb hjlen hcb hcbid
    have hj2 : j < bs2.length := by
      rw [hlen]
      exact hjlen
    have hc1 : bs2[j]? = some bs2[j] :=
      (List.getElem?_eq_some_getElem_iff bs2 j hj2).mpr trivial
    have hfj := hget j hj2
    rw [hfj] at hcb
    have hcbc1 : cb = bs2[j] ∨ cb = withTaint bs2[j] := by
      rcases (ptTaint_drain tts bs2).2 j bs2[j] hc1 with h | h
      · rw [h] at hcb
        exact Or.inl (Option.some.inj hcb).symm
      · rw [h] at hcb
        exact Or.inr (Option.some.inj hcb).symm
    have hcbid2 : bs2[j].id = cb.id := by
      rcases hcbc1 with rfl | rfl
      · rfl
      · rfl
    have hjtts : bs2[j].id ∈ tts := hlogtts bs2[j].id (by rw [hcbid2]; exact hcbid)
    have hdr := drainTaints_hit tts bs2[j].id hjtts bs2 j bs2[j] hc1 rfl
    rw [hdr] at hcb
    have : cb = withTaint bs2[j] := (Option.some.inj hcb).symm
    rw [this]
    exact withTaint_tainted _
  · obtain ⟨e, he⟩ := hlogext
    rw [hlog2, List.append_assoc] at he
    exact ⟨e0 ++ e, he⟩

/-- C8 witness: the theorem applied at a one-branch engine whose
revisit log already holds (1, 0) and whose branch 1 sits on the test
at offset 0. -/
theorem c8_witness :
    ∃ fOut, nextInstruction exIds exFlowC8 = some fOut ∧
      fOut.branches[0]? =
        some (withTaint {exBranchC8 with previous_pc := exBranchC8.pc, pc := exBranchC8.pc + Int.ofNat (4 / 2)}) := by
  cases hrun : nextInstruction exIds exFlowC8 with
  | none =>
      have hs : (nextInstruction exIds exFlowC8).isSome = true := rfl
      rw [hrun] at hs
      exact Bool.noConfusion hs
  | some fOut =>
      exact ⟨fOut, rfl,
        (c8_revisited_test_no_fork_taints_log exIds exFlowC8 0 exBranchC8 fOut 4
          (.test .equal 0 0 4) rfl rfl (Or.inl rfl) rfl
          (Or.inl ⟨.equal, 0, 0, 4, rfl⟩) (List.mem_singleton_self _)
          hrun).2.1⟩

/-- C9: whenever branch id B is on a tick's taint list, the taint
drain taints every branch whose parent_id ancestor chain (through
branches present in the list, each child's id differing from the id
being tainted — automatic for the engine's fresh random ids) reaches
B, provided the chain fits within the branch count (chains through
distinct branches always do). -/
theorem c9_taint_propagates_to_descendants (ts : List Nat) (bs : List Branch)
    (root cid n j : Nat) (cb : Branch) (hroot : root ∈ ts)
    (hdesc : Desc bs root cid n) (hn : n ≤ bs.length)
    (hj : bs[j]? = some cb) (hcid : cb.id = cid) :
    ∃ c2, (drainTaints ts bs)[j]? = some c2 ∧ c2.state.tainted = true :=
  drain_desc ts root hroot bs cid n hdesc hn j cb hj hcid

/-- C9 witness: the theorem applied at the concrete root/child pair,
tainting the child when the root's id is drained. -/
theorem c9_witness :
    ∃ c2, (drainTaints [1] exBsC9)[1]? = some c2 ∧ c2.state.tainted = true :=
  c9_taint_propagates_to_descendants [1] exBsC9 1 2 1 1 exBranchC9C
    (List.mem_singleton_self 1)
    (Desc.base 1 exBranchC9C
      (List.mem_cons_of_mem _ (List.mem_cons_self _ _)) rfl (by decide))
    (by decide) rfl rfl

/-- C10: reset(s) seeds one branch with previous_pc = pc = s; when
s ≠ 0 the very first tick finishes it through the non-advancing-pc
guard — independently of the method map, so no instruction is fetched
or executed and the registers stay untouched — while a branch seeded
at 0 passes the guard and executes the instruction at offset 0 (shown
for const/4 v0). -/
theorem c10_reset_nonzero_finishes_first_tick (ids ids2 : Nat → Nat × Nat)
    (ids0 ids02 : Nat × Nat) (f f2 : Flow) (s sz : Nat) (v : Int)
    (hs : s ≠ 0)
    (hreg : f2.register_size = 1)
    (hm0 : lookupInstr f2.method 0 = some (sz, .constLit4 0 v)) :
    (reset ids0 f s).branches =
      [⟨none, ids0.1, Int.ofNat s, ⟨ids0.2, List.replicate f.register_size Value.empty, none, false, []⟩, Int.ofNat s, false⟩] ∧
    nextInstruction ids (reset ids0 f s) =
      some {f with branches := [⟨none, ids0.1, Int.ofNat s, ⟨ids0.2, List.replicate f.register_size Value.empty, none, false, []⟩, Int.ofNat s, true⟩], already_branched := []} ∧
    nextInstruction ids2 (reset ids02 f2 0) =
      some {f2 with branches := [⟨none, ids02.1, Int.ofNat (sz / 2), ⟨ids02.2, [Value.num v], none, false, []⟩, 0, false⟩], already_branched := []} := by
  have hpc : Int.ofNat s ≠ 0 := fun hc => hs (Int.ofNat_eq_zero.mp hc)
  refine ⟨rfl, ?_, ?_⟩
  · simp [reset, newBranch, nextInstruction, runBranches, stepBranch, hpc, hs,
      drainTaints, admitForks]
  · simp [reset, newBranch, nextInstruction, runBranches, stepBranch, dispatch,
      hm0, hreg, drainTaints, admitForks, setReg, fallB, withRegs,
      is_function_call, is_move_result, isFunctionCallLI, List.replicate]

/-- C10 witness: the theorem applied at s = 5 over an arbitrary-method
engine and at s = 0 over the const/4 engine. -/
theorem c10_witness :
    nextInstruction exIds (reset (100, 101) exFlowC10 5) =
      some {exFlowC10 with branches := [⟨none, 100, Int.ofNat 5, ⟨101, List.replicate exFlowC10.register_size Value.empty, none, false, []⟩, Int.ofNat 5, true⟩], already_branched := []} ∧
    nextInstruction exIds (reset (100, 101) exFlowC10b 0) =
      some {exFlowC10b with branches := [⟨none, 100, Int.ofNat (4 / 2), ⟨101, [Value.num 5], none, false, []⟩, 0, false⟩], already_branched := []} :=
  ⟨(c10_reset_nonzero_finishes_first_tick exIds exIds (100, 101) (100, 101)
      exFlowC10 exFlowC10b 5 4 5 (by decide) rfl rfl).2.1,
    (c10_reset_nonzero_finishes_first_tick exIds exIds (100, 101) (100, 101)
      exFlowC10 exFlowC10b 5 4 5 (by decide) rfl rfl).2.2⟩

end Coeus
